import Mathlib

/-!
Formal model of the pofmt core (src/pofmt/core.py): a parser and reflow
engine for gettext PO catalogs.  Strings are modelled as lists of
characters, files as lists of lines, Python floats as rationals, and the
patched builtin len as an exact integer computation on the rational
width factor.  The optional pangu spacing transform is absent (its
module import fails unless the third-party package is installed), so
process_text applies quote escaping only.
-/

namespace Pofmt

/-- Truncation of a rational towards zero, the behaviour of the Python
builtin int() on a float or rational value. -/
def py_int (q : ℚ) : ℤ := if 0 ≤ q then ⌊q⌋ else ⌈q⌉

/-- Code-point ranges whose East-Asian-width class is W, A or F, extracted from the Unicode database used by unicodedata.east_asian_width. -/
def eawWAFRanges : List (Nat × Nat) := [(161, 161), (164, 164), (167, 168), (170, 170), (173, 174), (176, 180), (182, 186), (188, 191), (198, 198), (208, 208), (215, 216), (222, 225), (230, 230), (232, 234), (236, 237), (240, 240), (242, 243), (247, 250), (252, 252), (254, 254), (257, 257), (273, 273), (275, 275), (283, 283), (294, 295), (299, 299), (305, 307), (312, 312), (319, 322), (324, 324), (328, 331), (333, 333), (338, 339), (358, 359), (363, 363), (462, 462), (464, 464), (466, 466), (468, 468), (470, 470), (472, 472), (474, 474), (476, 476), (593, 593), (609, 609), (708, 708), (711, 711), (713, 715), (717, 717), (720, 720), (728, 731), (733, 733), (735, 735), (768, 879), (888, 889), (896, 899), (907, 907), (909, 909), (913, 937), (945, 961), (963, 969), (1025, 1025), (1040, 1103), (1105, 1105), (1328, 1328), (1367, 1368), (1419, 1420), (1424, 1424), (1480, 1487), (1515, 1518), (1525, 1535), (1806, 1806), (1867, 1868), (1970, 1983), (2043, 2044), (2094, 2095), (2111, 2111), (2140, 2141), (2143, 2143), (2155, 2159), (2191, 2191), (2194, 2199), (2436, 2436), (2445, 2446), (2449, 2450), (2473, 2473), (2481, 2481), (2483, 2485), (2490, 2491), (2501, 2502), (2505, 2506), (2511, 2518), (2520, 2523), (2526, 2526), (2532, 2533), (2559, 2560), (2564, 2564), (2571, 2574), (2577, 2578), (2601, 2601), (2609, 2609), (2612, 2612), (2615, 2615), (2618, 2619), (2621, 2621), (2627, 2630), (2633, 2634), (2638, 2640), (2642, 2648), (2653, 2653), (2655, 2661), (2679, 2688), (2692, 2692), (2702, 2702), (2706, 2706), (2729, 2729), (2737, 2737), (2740, 2740), (2746, 2747), (2758, 2758), (2762, 2762), (2766, 2767), (2769, 2783), (2788, 2789), (2802, 2808), (2816, 2816), (2820, 2820), (2829, 2830), (2833, 2834), (2857, 2857), (2865, 2865), (2868, 2868), (2874, 2875), (2885, 2886), (2889, 2890), (2894, 2900), (2904, 2907), (2910, 2910), (2916, 2917), (2936, 2945), (2948, 2948), (2955, 2957), (2961, 2961), (2966, 2968), (2971, 2971), (2973, 2973), (2976, 2978), (2981, 2983), (2987, 2989), (3002, 3005), (3011, 3013), (3017, 3017), (3022, 3023), (3025, 3030), (3032, 3045), (3067, 3071), (3085, 3085), (3089, 3089), (3113, 3113), (3130, 3131), (3141, 3141), (3145, 3145), (3150, 3156), (3159, 3159), (3163, 3164), (3166, 3167), (3172, 3173), (3184, 3190), (3213, 3213), (3217, 3217), (3241, 3241), (3252, 3252), (3258, 3259), (3269, 3269), (3273, 3273), (3278, 3284), (3287, 3292), (3295, 3295), (3300, 3301), (3312, 3312), (3315, 3327), (3341, 3341), (3345, 3345), (3397, 3397), (3401, 3401), (3408, 3411), (3428, 3429), (3456, 3456), (3460, 3460), (3479, 3481), (3506, 3506), (3516, 3516), (3518, 3519), (3527, 3529), (3531, 3534), (3541, 3541), (3543, 3543), (3552, 3557), (3568, 3569), (3573, 3584), (3643, 3646), (3676, 3712), (3715, 3715), (3717, 3717), (3723, 3723), (3748, 3748), (3750, 3750), (3774, 3775), (3781, 3781), (3783, 3783), (3790, 3791), (3802, 3803), (3808, 3839), (3912, 3912), (3949, 3952), (3992, 3992), (4029, 4029), (4045, 4045), (4059, 4095), (4294, 4294), (4296, 4300), (4302, 4303), (4352, 4447), (4681, 4681), (4686, 4687), (4695, 4695), (4697, 4697), (4702, 4703), (4745, 4745), (4750, 4751), (4785, 4785), (4790, 4791), (4799, 4799), (4801, 4801), (4806, 4807), (4823, 4823), (4881, 4881), (4886, 4887), (4955, 4956), (4989, 4991), (5018, 5023), (5110, 5111), (5118, 5119), (5789, 5791), (5881, 5887), (5910, 5918), (5943, 5951), (5972, 5983), (5997, 5997), (6001, 6001), (6004, 6015), (6110, 6111), (6122, 6127), (6138, 6143), (6170, 6175), (6265, 6271), (6315, 6319), (6390, 6399), (6431, 6431), (6444, 6447), (6460, 6463), (6465, 6467), (6510, 6511), (6517, 6527), (6572, 6575), (6602, 6607), (6619, 6621), (6684, 6685), (6751, 6751), (6781, 6782), (6794, 6799), (6810, 6815), (6830, 6831), (6863, 6911), (6989, 6991), (7039, 7039), (7156, 7163), (7224, 7226), (7242, 7244), (7305, 7311), (7355, 7356), (7368, 7375), (7419, 7423), (7958, 7959), (7966, 7967), (8006, 8007), (8014, 8015), (8024, 8024), (8026, 8026), (8028, 8028), (8030, 8030), (8062, 8063), (8117, 8117), (8133, 8133), (8148, 8149), (8156, 8156), (8176, 8177), (8181, 8181), (8191, 8191), (8208, 8208), (8211, 8214), (8216, 8217), (8220, 8221), (8224, 8226), (8228, 8231), (8240, 8240), (8242, 8243), (8245, 8245), (8251, 8251), (8254, 8254), (8293, 8293), (8306, 8308), (8319, 8319), (8321, 8324), (8335, 8335), (8349, 8351), (8364, 8364), (8385, 8399), (8433, 8447), (8451, 8451), (8453, 8453), (8457, 8457), (8467, 8467), (8470, 8470), (8481, 8482), (8486, 8486), (8491, 8491), (8531, 8532), (8539, 8542), (8544, 8555), (8560, 8569), (8585, 8585), (8588, 8601), (8632, 8633), (8658, 8658), (8660, 8660), (8679, 8679), (8704, 8704), (8706, 8707), (8711, 8712), (8715, 8715), (8719, 8719), (8721, 8721), (8725, 8725), (8730, 8730), (8733, 8736), (8739, 8739), (8741, 8741), (8743, 8748), (8750, 8750), (8756, 8759), (8764, 8765), (8776, 8776), (8780, 8780), (8786, 8786), (8800, 8801), (8804, 8807), (8810, 8811), (8814, 8815), (8834, 8835), (8838, 8839), (8853, 8853), (8857, 8857), (8869, 8869), (8895, 8895), (8978, 8978), (8986, 8987), (9001, 9002), (9193, 9196), (9200, 9200), (9203, 9203), (9255, 9279), (9291, 9449), (9451, 9547), (9552, 9587), (9600, 9615), (9618, 9621), (9632, 9633), (9635, 9641), (9650, 9651), (9654, 9655), (9660, 9661), (9664, 9665), (9670, 9672), (9675, 9675), (9678, 9681), (9698, 9701), (9711, 9711), (9725, 9726), (9733, 9734), (9737, 9737), (9742, 9743), (9748, 9749), (9756, 9756), (9758, 9758), (9792, 9792), (9794, 9794), (9800, 9811), (9824, 9825), (9827, 9829), (9831, 9834), (9836, 9837), (9839, 9839), (9855, 9855), (9875, 9875), (9886, 9887), (9889, 9889), (9898, 9899), (9917, 9919), (9924, 9953), (9955, 9955), (9960, 9983), (9989, 9989), (9994, 9995), (10024, 10024), (10045, 10045), (10060, 10060), (10062, 10062), (10067, 10069), (10071, 10071), (10102, 10111), (10133, 10135), (10160, 10160), (10175, 10175), (11035, 11036), (11088, 11088), (11093, 11097), (11124, 11125), (11158, 11158), (11508, 11512), (11558, 11558), (11560, 11564), (11566, 11567), (11624, 11630), (11633, 11646), (11671, 11679), (11687, 11687), (11695, 11695), (11703, 11703), (11711, 11711), (11719, 11719), (11727, 11727), (11735, 11735), (11743, 11743), (11870, 12350), (12352, 19903), (19968, 42191), (42540, 42559), (42744, 42751), (42955, 42959), (42962, 42962), (42964, 42964), (42970, 42993), (43053, 43055), (43066, 43071), (43128, 43135), (43206, 43213), (43226, 43231), (43348, 43358), (43360, 43391), (43470, 43470), (43482, 43485), (43519, 43519), (43575, 43583), (43598, 43599), (43610, 43611), (43715, 43738), (43767, 43776), (43783, 43784), (43791, 43792), (43799, 43807), (43815, 43815), (43823, 43823), (43884, 43887), (44014, 44015), (44026, 55215), (55239, 55242), (55292, 55295), (57344, 64255), (64263, 64274), (64280, 64284), (64311, 64311), (64317, 64317), (64319, 64319), (64322, 64322), (64325, 64325), (64451, 64466), (64912, 64913), (64968, 64974), (64976, 65007), (65024, 65055), (65072, 65135), (65141, 65141), (65277, 65278), (65280, 65376), (65471, 65473), (65480, 65481), (65488, 65489), (65496, 65497), (65501, 65511), (65519, 65528), (65533, 65535), (65548, 65548), (65575, 65575), (65595, 65595), (65598, 65598), (65614, 65615), (65630, 65663), (65787, 65791), (65795, 65798), (65844, 65846), (65935, 65935), (65949, 65951), (65953, 65999), (66046, 66175), (66205, 66207), (66257, 66271), (66300, 66303), (66340, 66348), (66379, 66383), (66427, 66431), (66462, 66462), (66500, 66503), (66518, 66559), (66718, 66719), (66730, 66735), (66772, 66775), (66812, 66815), (66856, 66863), (66916, 66926), (66939, 66939), (66955, 66955), (66963, 66963), (66966, 66966), (66978, 66978), (66994, 66994), (67002, 67002), (67005, 67071), (67383, 67391), (67414, 67423), (67432, 67455), (67462, 67462), (67505, 67505), (67515, 67583), (67590, 67591), (67593, 67593), (67638, 67638), (67641, 67643), (67645, 67646), (67670, 67670), (67743, 67750), (67760, 67807), (67827, 67827), (67830, 67834), (67868, 67870), (67898, 67902), (67904, 67967), (68024, 68027), (68048, 68049), (68100, 68100), (68103, 68107), (68116, 68116), (68120, 68120), (68150, 68151), (68155, 68158), (68169, 68175), (68185, 68191), (68256, 68287), (68327, 68330), (68343, 68351), (68406, 68408), (68438, 68439), (68467, 68471), (68498, 68504), (68509, 68520), (68528, 68607), (68681, 68735), (68787, 68799), (68851, 68857), (68904, 68911), (68922, 69215), (69247, 69247), (69290, 69290), (69294, 69295), (69298, 69375), (69416, 69423), (69466, 69487), (69514, 69551), (69580, 69599), (69623, 69631), (69710, 69713), (69750, 69758), (69827, 69836), (69838, 69839), (69865, 69871), (69882, 69887), (69941, 69941), (69960, 69967), (70007, 70015), (70112, 70112), (70133, 70143), (70162, 70162), (70207, 70271), (70279, 70279), (70281, 70281), (70286, 70286), (70302, 70302), (70314, 70319), (70379, 70383), (70394, 70399), (70404, 70404), (70413, 70414), (70417, 70418), (70441, 70441), (70449, 70449), (70452, 70452), (70458, 70458), (70469, 70470), (70473, 70474), (70478, 70479), (70481, 70486), (70488, 70492), (70500, 70501), (70509, 70511), (70517, 70655), (70748, 70748), (70754, 70783), (70856, 70863), (70874, 71039), (71094, 71095), (71134, 71167), (71237, 71247), (71258, 71263), (71277, 71295), (71354, 71359), (71370, 71423), (71451, 71452), (71468, 71471), (71495, 71679), (71740, 71839), (71923, 71934), (71943, 71944), (71946, 71947), (71956, 71956), (71959, 71959), (71990, 71990), (71993, 71994), (72007, 72015), (72026, 72095), (72104, 72105), (72152, 72153), (72165, 72191), (72264, 72271), (72355, 72367), (72441, 72703), (72713, 72713), (72759, 72759), (72774, 72783), (72813, 72815), (72848, 72849), (72872, 72872), (72887, 72959), (72967, 72967), (72970, 72970), (73015, 73017), (73019, 73019), (73022, 73022), (73032, 73039), (73050, 73055), (73062, 73062), (73065, 73065), (73103, 73103), (73106, 73106), (73113, 73119), (73130, 73439), (73465, 73647), (73649, 73663), (73714, 73726), (74650, 74751), (74863, 74863), (74869, 74879), (75076, 77711), (77811, 77823), (78895, 78895), (78905, 82943), (83527, 92159), (92729, 92735), (92767, 92767), (92778, 92781), (92863, 92863), (92874, 92879), (92910, 92911), (92918, 92927), (92998, 93007), (93018, 93018), (93026, 93026), (93048, 93052), (93072, 93759), (93851, 93951), (94027, 94030), (94088, 94094), (94112, 113663), (113771, 113775), (113789, 113791), (113801, 113807), (113818, 113819), (113828, 118527), (118574, 118575), (118599, 118607), (118724, 118783), (119030, 119039), (119079, 119080), (119275, 119295), (119366, 119519), (119540, 119551), (119639, 119647), (119673, 119807), (119893, 119893), (119965, 119965), (119968, 119969), (119971, 119972), (119975, 119976), (119981, 119981), (119994, 119994), (119996, 119996), (120004, 120004), (120070, 120070), (120075, 120076), (120085, 120085), (120093, 120093), (120122, 120122), (120127, 120127), (120133, 120133), (120135, 120137), (120145, 120145), (120486, 120487), (120780, 120781), (121484, 121498), (121504, 121504), (121520, 122623), (122655, 122879), (122887, 122887), (122905, 122906), (122914, 122914), (122917, 122917), (122923, 123135), (123181, 123183), (123198, 123199), (123210, 123213), (123216, 123535), (123567, 123583), (123642, 123646), (123648, 124895), (124903, 124903), (124908, 124908), (124911, 124911), (124927, 124927), (125125, 125126), (125143, 125183), (125260, 125263), (125274, 125277), (125280, 126064), (126133, 126208), (126270, 126463), (126468, 126468), (126496, 126496), (126499, 126499), (126501, 126502), (126504, 126504), (126515, 126515), (126520, 126520), (126522, 126522), (126524, 126529), (126531, 126534), (126536, 126536), (126538, 126538), (126540, 126540), (126544, 126544), (126547, 126547), (126549, 126550), (126552, 126552), (126554, 126554), (126556, 126556), (126558, 126558), (126560, 126560), (126563, 126563), (126565, 126566), (126571, 126571), (126579, 126579), (126584, 126584), (126589, 126589), (126591, 126591), (126602, 126602), (126620, 126624), (126628, 126628), (126634, 126634), (126652, 126703), (126706, 126975), (126980, 126980), (127020, 127023), (127124, 127135), (127151, 127152), (127168, 127168), (127183, 127184), (127222, 127242), (127248, 127277), (127280, 127337), (127344, 127404), (127406, 127461), (127488, 127776), (127789, 127797), (127799, 127868), (127870, 127891), (127904, 127946), (127951, 127955), (127968, 127984), (127988, 127988), (127992, 128062), (128064, 128064), (128066, 128252), (128255, 128317), (128331, 128334), (128336, 128359), (128378, 128378), (128405, 128406), (128420, 128420), (128507, 128591), (128640, 128709), (128716, 128716), (128720, 128722), (128725, 128735), (128747, 128751), (128756, 128767), (128884, 128895), (128985, 129023), (129036, 129039), (129096, 129103), (129114, 129119), (129160, 129167), (129198, 129199), (129202, 129279), (129292, 129338), (129340, 129349), (129351, 129535), (129620, 129631), (129646, 129791), (129939, 129939), (129995, 130031), (130042, 917504), (917506, 917535), (917632, 1114111)]

/-- Code-point ranges matched by a word character class in the regular-expression engine (letters, digits, underscore and other Unicode word characters). -/
def wordCharRanges : List (Nat × Nat) := [(48, 57), (65, 90), (95, 95), (97, 122), (170, 170), (178, 179), (181, 181), (185, 186), (188, 190), (192, 214), (216, 246), (248, 705), (710, 721), (736, 740), (748, 748), (750, 750), (880, 884), (886, 887), (890, 893), (895, 895), (902, 902), (904, 906), (908, 908), (910, 929), (931, 1013), (1015, 1153), (1162, 1327), (1329, 1366), (1369, 1369), (1376, 1416), (1488, 1514), (1519, 1522), (1568, 1610), (1632, 1641), (1646, 1647), (1649, 1747), (1749, 1749), (1765, 1766), (1774, 1788), (1791, 1791), (1808, 1808), (1810, 1839), (1869, 1957), (1969, 1969), (1984, 2026), (2036, 2037), (2042, 2042), (2048, 2069), (2074, 2074), (2084, 2084), (2088, 2088), (2112, 2136), (2144, 2154), (2160, 2183), (2185, 2190), (2208, 2249), (2308, 2361), (2365, 2365), (2384, 2384), (2392, 2401), (2406, 2415), (2417, 2432), (2437, 2444), (2447, 2448), (2451, 2472), (2474, 2480), (2482, 2482), (2486, 2489), (2493, 2493), (2510, 2510), (2524, 2525), (2527, 2529), (2534, 2545), (2548, 2553), (2556, 2556), (2565, 2570), (2575, 2576), (2579, 2600), (2602, 2608), (2610, 2611), (2613, 2614), (2616, 2617), (2649, 2652), (2654, 2654), (2662, 2671), (2674, 2676), (2693, 2701), (2703, 2705), (2707, 2728), (2730, 2736), (2738, 2739), (2741, 2745), (2749, 2749), (2768, 2768), (2784, 2785), (2790, 2799), (2809, 2809), (2821, 2828), (2831, 2832), (2835, 2856), (2858, 2864), (2866, 2867), (2869, 2873), (2877, 2877), (2908, 2909), (2911, 2913), (2918, 2927), (2929, 2935), (2947, 2947), (2949, 2954), (2958, 2960), (2962, 2965), (2969, 2970), (2972, 2972), (2974, 2975), (2979, 2980), (2984, 2986), (2990, 3001), (3024, 3024), (3046, 3058), (3077, 3084), (3086, 3088), (3090, 3112), (3114, 3129), (3133, 3133), (3160, 3162), (3165, 3165), (3168, 3169), (3174, 3183), (3192, 3198), (3200, 3200), (3205, 3212), (3214, 3216), (3218, 3240), (3242, 3251), (3253, 3257), (3261, 3261), (3293, 3294), (3296, 3297), (3302, 3311), (3313, 3314), (3332, 3340), (3342, 3344), (3346, 3386), (3389, 3389), (3406, 3406), (3412, 3414), (3416, 3425), (3430, 3448), (3450, 3455), (3461, 3478), (3482, 3505), (3507, 3515), (3517, 3517), (3520, 3526), (3558, 3567), (3585, 3632), (3634, 3635), (3648, 3654), (3664, 3673), (3713, 3714), (3716, 3716), (3718, 3722), (3724, 3747), (3749, 3749), (3751, 3760), (3762, 3763), (3773, 3773), (3776, 3780), (3782, 3782), (3792, 3801), (3804, 3807), (3840, 3840), (3872, 3891), (3904, 3911), (3913, 3948), (3976, 3980), (4096, 4138), (4159, 4169), (4176, 4181), (4186, 4189), (4193, 4193), (4197, 4198), (4206, 4208), (4213, 4225), (4238, 4238), (4240, 4249), (4256, 4293), (4295, 4295), (4301, 4301), (4304, 4346), (4348, 4680), (4682, 4685), (4688, 4694), (4696, 4696), (4698, 4701), (4704, 4744), (4746, 4749), (4752, 4784), (4786, 4789), (4792, 4798), (4800, 4800), (4802, 4805), (4808, 4822), (4824, 4880), (4882, 4885), (4888, 4954), (4969, 4988), (4992, 5007), (5024, 5109), (5112, 5117), (5121, 5740), (5743, 5759), (5761, 5786), (5792, 5866), (5870, 5880), (5888, 5905), (5919, 5937), (5952, 5969), (5984, 5996), (5998, 6000), (6016, 6067), (6103, 6103), (6108, 6108), (6112, 6121), (6128, 6137), (6160, 6169), (6176, 6264), (6272, 6276), (6279, 6312), (6314, 6314), (6320, 6389), (6400, 6430), (6470, 6509), (6512, 6516), (6528, 6571), (6576, 6601), (6608, 6618), (6656, 6678), (6688, 6740), (6784, 6793), (6800, 6809), (6823, 6823), (6917, 6963), (6981, 6988), (6992, 7001), (7043, 7072), (7086, 7141), (7168, 7203), (7232, 7241), (7245, 7293), (7296, 7304), (7312, 7354), (7357, 7359), (7401, 7404), (7406, 7411), (7413, 7414), (7418, 7418), (7424, 7615), (7680, 7957), (7960, 7965), (7968, 8005), (8008, 8013), (8016, 8023), (8025, 8025), (8027, 8027), (8029, 8029), (8031, 8061), (8064, 8116), (8118, 8124), (8126, 8126), (8130, 8132), (8134, 8140), (8144, 8147), (8150, 8155), (8160, 8172), (8178, 8180), (8182, 8188), (8304, 8305), (8308, 8313), (8319, 8329), (8336, 8348), (8450, 8450), (8455, 8455), (8458, 8467), (8469, 8469), (8473, 8477), (8484, 8484), (8486, 8486), (8488, 8488), (8490, 8493), (8495, 8505), (8508, 8511), (8517, 8521), (8526, 8526), (8528, 8585), (9312, 9371), (9450, 9471), (10102, 10131), (11264, 11492), (11499, 11502), (11506, 11507), (11517, 11517), (11520, 11557), (11559, 11559), (11565, 11565), (11568, 11623), (11631, 11631), (11648, 11670), (11680, 11686), (11688, 11694), (11696, 11702), (11704, 11710), (11712, 11718), (11720, 11726), (11728, 11734), (11736, 11742), (11823, 11823), (12293, 12295), (12321, 12329), (12337, 12341), (12344, 12348), (12353, 12438), (12445, 12447), (12449, 12538), (12540, 12543), (12549, 12591), (12593, 12686), (12690, 12693), (12704, 12735), (12784, 12799), (12832, 12841), (12872, 12879), (12881, 12895), (12928, 12937), (12977, 12991), (13312, 19903), (19968, 42124), (42192, 42237), (42240, 42508), (42512, 42539), (42560, 42606), (42623, 42653), (42656, 42735), (42775, 42783), (42786, 42888), (42891, 42954), (42960, 42961), (42963, 42963), (42965, 42969), (42994, 43009), (43011, 43013), (43015, 43018), (43020, 43042), (43056, 43061), (43072, 43123), (43138, 43187), (43216, 43225), (43250, 43255), (43259, 43259), (43261, 43262), (43264, 43301), (43312, 43334), (43360, 43388), (43396, 43442), (43471, 43481), (43488, 43492), (43494, 43518), (43520, 43560), (43584, 43586), (43588, 43595), (43600, 43609), (43616, 43638), (43642, 43642), (43646, 43695), (43697, 43697), (43701, 43702), (43705, 43709), (43712, 43712), (43714, 43714), (43739, 43741), (43744, 43754), (43762, 43764), (43777, 43782), (43785, 43790), (43793, 43798), (43808, 43814), (43816, 43822), (43824, 43866), (43868, 43881), (43888, 44002), (44016, 44025), (44032, 55203), (55216, 55238), (55243, 55291), (63744, 64109), (64112, 64217), (64256, 64262), (64275, 64279), (64285, 64285), (64287, 64296), (64298, 64310), (64312, 64316), (64318, 64318), (64320, 64321), (64323, 64324), (64326, 64433), (64467, 64829), (64848, 64911), (64914, 64967), (65008, 65019), (65136, 65140), (65142, 65276), (65296, 65305), (65313, 65338), (65345, 65370), (65382, 65470), (65474, 65479), (65482, 65487), (65490, 65495), (65498, 65500), (65536, 65547), (65549, 65574), (65576, 65594), (65596, 65597), (65599, 65613), (65616, 65629), (65664, 65786), (65799, 65843), (65856, 65912), (65930, 65931), (66176, 66204), (66208, 66256), (66273, 66299), (66304, 66339), (66349, 66378), (66384, 66421), (66432, 66461), (66464, 66499), (66504, 66511), (66513, 66517), (66560, 66717), (66720, 66729), (66736, 66771), (66776, 66811), (66816, 66855), (66864, 66915), (66928, 66938), (66940, 66954), (66956, 66962), (66964, 66965), (66967, 66977), (66979, 66993), (66995, 67001), (67003, 67004), (67072, 67382), (67392, 67413), (67424, 67431), (67456, 67461), (67463, 67504), (67506, 67514), (67584, 67589), (67592, 67592), (67594, 67637), (67639, 67640), (67644, 67644), (67647, 67669), (67672, 67702), (67705, 67742), (67751, 67759), (67808, 67826), (67828, 67829), (67835, 67867), (67872, 67897), (67968, 68023), (68028, 68047), (68050, 68096), (68112, 68115), (68117, 68119), (68121, 68149), (68160, 68168), (68192, 68222), (68224, 68255), (68288, 68295), (68297, 68324), (68331, 68335), (68352, 68405), (68416, 68437), (68440, 68466), (68472, 68497), (68521, 68527), (68608, 68680), (68736, 68786), (68800, 68850), (68858, 68899), (68912, 68921), (69216, 69246), (69248, 69289), (69296, 69297), (69376, 69415), (69424, 69445), (69457, 69460), (69488, 69505), (69552, 69579), (69600, 69622), (69635, 69687), (69714, 69743), (69745, 69746), (69749, 69749), (69763, 69807), (69840, 69864), (69872, 69881), (69891, 69926), (69942, 69951), (69956, 69956), (69959, 69959), (69968, 70002), (70006, 70006), (70019, 70066), (70081, 70084), (70096, 70106), (70108, 70108), (70113, 70132), (70144, 70161), (70163, 70187), (70272, 70278), (70280, 70280), (70282, 70285), (70287, 70301), (70303, 70312), (70320, 70366), (70384, 70393), (70405, 70412), (70415, 70416), (70419, 70440), (70442, 70448), (70450, 70451), (70453, 70457), (70461, 70461), (70480, 70480), (70493, 70497), (70656, 70708), (70727, 70730), (70736, 70745), (70751, 70753), (70784, 70831), (70852, 70853), (70855, 70855), (70864, 70873), (71040, 71086), (71128, 71131), (71168, 71215), (71236, 71236), (71248, 71257), (71296, 71338), (71352, 71352), (71360, 71369), (71424, 71450), (71472, 71483), (71488, 71494), (71680, 71723), (71840, 71922), (71935, 71942), (71945, 71945), (71948, 71955), (71957, 71958), (71960, 71983), (71999, 71999), (72001, 72001), (72016, 72025), (72096, 72103), (72106, 72144), (72161, 72161), (72163, 72163), (72192, 72192), (72203, 72242), (72250, 72250), (72272, 72272), (72284, 72329), (72349, 72349), (72368, 72440), (72704, 72712), (72714, 72750), (72768, 72768), (72784, 72812), (72818, 72847), (72960, 72966), (72968, 72969), (72971, 73008), (73030, 73030), (73040, 73049), (73056, 73061), (73063, 73064), (73066, 73097), (73112, 73112), (73120, 73129), (73440, 73458), (73648, 73648), (73664, 73684), (73728, 74649), (74752, 74862), (74880, 75075), (77712, 77808), (77824, 78894), (82944, 83526), (92160, 92728), (92736, 92766), (92768, 92777), (92784, 92862), (92864, 92873), (92880, 92909), (92928, 92975), (92992, 92995), (93008, 93017), (93019, 93025), (93027, 93047), (93053, 93071), (93760, 93846), (93952, 94026), (94032, 94032), (94099, 94111), (94176, 94177), (94179, 94179), (94208, 100343), (100352, 101589), (101632, 101640), (110576, 110579), (110581, 110587), (110589, 110590), (110592, 110882), (110928, 110930), (110948, 110951), (110960, 111355), (113664, 113770), (113776, 113788), (113792, 113800), (113808, 113817), (119520, 119539), (119648, 119672), (119808, 119892), (119894, 119964), (119966, 119967), (119970, 119970), (119973, 119974), (119977, 119980), (119982, 119993), (119995, 119995), (119997, 120003), (120005, 120069), (120071, 120074), (120077, 120084), (120086, 120092), (120094, 120121), (120123, 120126), (120128, 120132), (120134, 120134), (120138, 120144), (120146, 120485), (120488, 120512), (120514, 120538), (120540, 120570), (120572, 120596), (120598, 120628), (120630, 120654), (120656, 120686), (120688, 120712), (120714, 120744), (120746, 120770), (120772, 120779), (120782, 120831), (122624, 122654), (123136, 123180), (123191, 123197), (123200, 123209), (123214, 123214), (123536, 123565), (123584, 123627), (123632, 123641), (124896, 124902), (124904, 124907), (124909, 124910), (124912, 124926), (124928, 125124), (125127, 125135), (125184, 125251), (125259, 125259), (125264, 125273), (126065, 126123), (126125, 126127), (126129, 126132), (126209, 126253), (126255, 126269), (126464, 126467), (126469, 126495), (126497, 126498), (126500, 126500), (126503, 126503), (126505, 126514), (126516, 126519), (126521, 126521), (126523, 126523), (126530, 126530), (126535, 126535), (126537, 126537), (126539, 126539), (126541, 126543), (126545, 126546), (126548, 126548), (126551, 126551), (126553, 126553), (126555, 126555), (126557, 126557), (126559, 126559), (126561, 126562), (126564, 126564), (126567, 126570), (126572, 126578), (126580, 126583), (126585, 126588), (126590, 126590), (126592, 126601), (126603, 126619), (126625, 126627), (126629, 126633), (126635, 126651), (127232, 127244), (130032, 130041), (131072, 173791), (173824, 177976), (177984, 178205), (178208, 183969), (183984, 191456), (194560, 195101), (196608, 201546)]

/-- Code-point ranges of Unicode decimal digits (the d character class of the regular-expression engine). -/
def digitCharRanges : List (Nat × Nat) := [(48, 57), (1632, 1641), (1776, 1785), (1984, 1993), (2406, 2415), (2534, 2543), (2662, 2671), (2790, 2799), (2918, 2927), (3046, 3055), (3174, 3183), (3302, 3311), (3430, 3439), (3558, 3567), (3664, 3673), (3792, 3801), (3872, 3881), (4160, 4169), (4240, 4249), (6112, 6121), (6160, 6169), (6470, 6479), (6608, 6617), (6784, 6793), (6800, 6809), (6992, 7001), (7088, 7097), (7232, 7241), (7248, 7257), (42528, 42537), (43216, 43225), (43264, 43273), (43472, 43481), (43504, 43513), (43600, 43609), (44016, 44025), (65296, 65305), (66720, 66729), (68912, 68921), (69734, 69743), (69872, 69881), (69942, 69951), (70096, 70105), (70384, 70393), (70736, 70745), (70864, 70873), (71248, 71257), (71360, 71369), (71472, 71481), (71904, 71913), (72016, 72025), (72784, 72793), (73040, 73049), (73120, 73129), (92768, 92777), (92864, 92873), (93008, 93017), (120782, 120831), (123200, 123209), (123632, 123641), (125264, 125273), (130032, 130041)]

/-- Code points regarded as whitespace by str.isspace and str.strip. -/
def pySpaceRanges : List (Nat × Nat) := [(9, 13), (28, 32), (133, 133), (160, 160), (5760, 5760), (8192, 8202), (8232, 8233), (8239, 8239), (8287, 8287), (12288, 12288)]

/-- Membership of a code point in a list of inclusive ranges. -/
def inRanges (rs : List (Nat × Nat)) (c : Char) : Bool :=
  rs.any fun r => decide (r.1 ≤ c.toNat) && decide (c.toNat ≤ r.2)

/-- Model of is_full_width: unicodedata.east_asian_width(c) in "WAF". -/
def is_full_width (c : Char) : Bool := inRanges eawWAFRanges c

/-- Model of the regular-expression word character class. -/
def isWordChar (c : Char) : Bool := inRanges wordCharRanges c

/-- Model of the regular-expression decimal digit character class. -/
def isDigitChar (c : Char) : Bool := inRanges digitCharRanges c

/-- Model of str.isspace, used by str.strip and by truthiness tests of
stripped lines. -/
def isPySpace (c : Char) : Bool := inRanges pySpaceRanges c

/-- The weight a single character contributes to the patched len:
factor for a full-width character and 1 otherwise. -/
def charWeight (factor : ℚ) (c : Char) : ℚ :=
  if is_full_width c then factor else 1

/-- Reference model of the len installed by len_with_cjk_width_factor:
int(sum(factor if is_full_width(c) else 1 for c in text)). -/
def new_len_spec (factor : ℚ) (text : List Char) : ℤ :=
  py_int (text.foldr (fun c acc => charWeight factor c + acc) 0)

/-- Number of full-width characters of a string. -/
def countFW (text : List Char) : ℕ := text.countP (fun c => is_full_width c)

/-- Computable form of the patched len: the weighted sum equals
(num * countFW + den * rest) / den exactly, and truncation towards zero
of that fraction is integer t-division.  new_len_eq_spec proves this
definition equal to new_len_spec. -/
def new_len (factor : ℚ) (text : List Char) : ℤ :=
  Int.tdiv (factor.num * countFW text + factor.den * ((text.length : ℤ) - countFW text)) factor.den

/-- Model of escape_quotes: re.sub of an unescaped double quote by a
backslash-quote pair.  The lookbehind examines the character of the
original text immediately before the quote. -/
def escapeGo : Option Char → List Char → List Char
  | _, [] => []
  | prev, c :: rest =>
      if c = '"' && prev ≠ some '\\' then
        '\\' :: '"' :: escapeGo (some c) rest
      else
        c :: escapeGo (some c) rest

/-- escape_quotes(text) = re.sub(r given by a negative lookbehind for a
backslash before a double quote, backslash-quote, text). -/
def escape_quotes (text : List Char) : List Char := escapeGo none text

/-- Whitespace characters of the textwrap module (tab, newline, vertical
tab, form feed, carriage return, space). -/
def isWsTW (c : Char) : Bool :=
  c = '\t' || c = '\n' || c = '\x0b' || c = '\x0c' || c = '\r' || c = ' '

/-- Model of str.expandtabs(8): a tab becomes spaces up to the next
multiple of eight columns; the column count resets after a newline or a
carriage return. -/
def expandtabsGo : ℕ → List Char → List Char
  | _, [] => []
  | col, c :: rest =>
      if c = '\t' then
        List.replicate (8 - col % 8) ' ' ++ expandtabsGo (col + (8 - col % 8)) rest
      else if c = '\n' || c = '\r' then c :: expandtabsGo 0 rest
      else c :: expandtabsGo (col + 1) rest

/-- Model of TextWrapper._munge_whitespace with the default expand_tabs
and replace_whitespace settings: expand tabs, then replace every
whitespace character by a space. -/
def munge (text : List Char) : List Char :=
  (expandtabsGo 0 text).map fun c => if isWsTW c then ' ' else c

/-- Word-punctuation class of the textwrap word-separator pattern. -/
def isWordPunct (c : Char) : Bool :=
  isWordChar c || (['!', '"', '\'', '&', '.', ',', '?'].contains c)

/-- Letter class of the textwrap word-separator pattern: a word
character that is not a digit. -/
def isLetter (c : Char) : Bool := isWordChar c && !isDigitChar c

/-- CJK opening punctuation added to the word-separator pattern by
Entry._format_text. -/
def isOpening (c : Char) : Bool := "（〈《「『﹃〔￥【“‘".toList.contains c

/-- CJK closing punctuation added to the word-separator pattern by
Entry._format_text. -/
def isClosing (c : Char) : Bool := "）〉》」』﹄〕…—～﹏、。，？！：；”’".toList.contains c

/-- First lookbehind alternative of the hyphenated-word branch of the
word-separator pattern: the two characters before the candidate hyphen,
read backwards, are letters. -/
def lbHyphen1 : List Char → Bool
  | a :: b :: _ => isLetter a && isLetter b
  | _ => false

/-- Second lookbehind alternative of the hyphenated-word branch: the
three characters before the candidate hyphen are a letter, a hyphen and
a letter, read backwards. -/
def lbHyphen2 : List Char → Bool
  | a :: b :: c :: _ => isLetter a && b = '-' && isLetter c
  | _ => false

/-- Lookahead of the hyphenated-word branch: a letter, an optional
hyphen and a letter. -/
def laHyphen : List Char → Bool
  | a :: b :: c :: _ =>
      if b = '-' then isLetter a && isLetter c else isLetter a && isLetter b
  | [a, b] => isLetter a && isLetter b
  | _ => false

/-- Terminator of a word chunk that consumes a hyphen: the hyphenated
word branch of the word-separator pattern.  ctx is the reversed text
before the current position, rem the remaining text starting at the
candidate hyphen. -/
def termHyphen (ctx rem : List Char) : Bool :=
  match rem with
  | h :: after => h = '-' && (lbHyphen1 ctx || lbHyphen2 ctx) && laHyphen after
  | [] => false

/-- Terminator of a word chunk at an em-dash: the previous character is
word punctuation and the remaining text starts with two or more hyphens
followed by a word character. -/
def termEmDashAhead (ctx rem : List Char) : Bool :=
  (match ctx with
    | p :: _ => isWordPunct p
    | [] => false) &&
  (let hs := rem.takeWhile (fun c => c = '-')
   decide (2 ≤ hs.length) &&
   (match rem.drop hs.length with
     | w :: _ => isWordChar w
     | [] => false))

/-- Terminator of a word chunk between a CJK closing punctuation
character and a following word character (the first branch appended to
the word-separator pattern by Entry._format_text; the space in that
branch is ignored because the pattern is compiled in verbose mode). -/
def termClosing (ctx rem : List Char) : Bool :=
  (match ctx with
    | p :: _ => isClosing p
    | [] => false) &&
  (match rem with
    | w :: _ => isWordChar w
    | [] => false)

/-- Terminator of a word chunk immediately before a CJK opening
punctuation character (the second branch appended to the word-separator
pattern by Entry._format_text). -/
def termOpening (rem : List Char) : Bool :=
  match rem with
  | w :: _ => isOpening w
  | [] => false

/-- Terminator of a word chunk at whitespace or at the end of the
text. -/
def termEnd (rem : List Char) : Bool :=
  match rem with
  | c :: _ => isWsTW c
  | [] => true

/-- Lazy scan of one word chunk of the word-separator pattern: having
consumed the non-empty reversed prefix acc (with ctx the reversed whole
text before the current position), try the terminating alternatives of
the pattern in order at each position, consuming one more non-whitespace
character when none applies.  Returns the chunk and the remaining
text. -/
def scanWord : List Char → List Char → List Char → (List Char × List Char)
  | ctx, acc, rem =>
      if termHyphen ctx rem then
        (acc.reverse ++ ['-'], rem.tail)
      else if termEnd rem then
        (acc.reverse, rem)
      else if termEmDashAhead ctx rem || termClosing ctx rem || termOpening rem then
        (acc.reverse, rem)
      else
        match rem with
        | [] => (acc.reverse, [])
        | c :: rest => scanWord (c :: ctx) (c :: acc) rest

/-- One pass of splitting text into chunks with the word-separator
pattern of Entry._format_text: a maximal whitespace run, an em-dash run
between word punctuation and a word character, or a lazily terminated
word.  left is the reversed text before the current position.  Every
position of the text starts a match of the pattern, so the split pieces
between matches are all empty and the chunk list is exactly the list of
matches. -/
def splitChunksGo (lines_fuel : ℕ) (left rest : List Char) : List (List Char) :=
  match lines_fuel, rest with
  | 0, _ => []
  | _ + 1, [] => []
  | fuel + 1, c :: rest' =>
      if isWsTW c then
        let run := (c :: rest').takeWhile isWsTW
        run :: splitChunksGo fuel (run.reverse ++ left) ((c :: rest').drop run.length)
      else
        let emOk :=
          (match left with
            | p :: _ => isWordPunct p
            | [] => false) &&
          (let hs := (c :: rest').takeWhile (fun x => x = '-')
           decide (2 ≤ hs.length) &&
           (match (c :: rest').drop hs.length with
             | w :: _ => isWordChar w
             | [] => false))
        if emOk then
          let run := (c :: rest').takeWhile (fun x => x = '-')
          run :: splitChunksGo fuel (run.reverse ++ left) ((c :: rest').drop run.length)
        else
          let p := scanWord (c :: left) [c] rest'
          p.1 :: splitChunksGo fuel (p.1.reverse ++ left) p.2

/-- Chunk split of TextWrapper._split with the modified word-separator
pattern: the split pieces are empty, empty strings are filtered out, so
the result is the list of pattern matches in order. -/
def splitChunks (text : List Char) : List (List Char) :=
  splitChunksGo (text.length + 1) [] text

set_option maxRecDepth 100000

/-- Model of str.rfind of a hyphen with start 0 and the given exclusive
bound: the highest character index below the bound holding a hyphen, or
-1. -/
def rfindHyphen (l : List Char) (bound : ℕ) : ℤ :=
  let seg := l.take bound
  match seg.reverse.findIdx? (fun c => c = '-') with
  | some k => (seg.length : ℤ) - 1 - k
  | none => -1

/-- Model of TextWrapper._handle_long_word with break_long_words and
break_on_hyphens both true (their default values): move a prefix of the
head chunk onto the current line, breaking after the last hyphen inside
the available space when the chunk has a suitable hyphen, and otherwise
at the character index equal to the space left on the line.  The length
comparison uses the patched len while the slice index counts
characters. -/
def handle_long_word (factor : ℚ) (w : ℤ) (chunks cur_line : List (List Char))
    (cur_len : ℤ) : List (List Char) × List (List Char) :=
  let space_left : ℤ := if w < 1 then 1 else w - cur_len
  match chunks with
  | [] => (cur_line, chunks)
  | chunk :: rest =>
      let endIdx : ℤ :=
        if new_len factor chunk > space_left then
          let hyphen := rfindHyphen chunk space_left.toNat
          if hyphen > 0 && (chunk.take hyphen.toNat).any (fun c => c ≠ '-') then
            hyphen + 1
          else space_left
        else space_left
      (cur_line ++ [chunk.take endIdx.toNat], chunk.drop endIdx.toNat :: rest)

/-- Inner greedy loop of TextWrapper._wrap_chunks: pop chunks onto the
current line while they fit.  Returns the current line, the remaining
chunks and the accumulated patched length. -/
def wrapLineGo (factor : ℚ) (w : ℤ) :
    List (List Char) → List (List Char) → ℤ → List (List Char) × List (List Char) × ℤ
  | [], cur_line, cur_len => (cur_line, [], cur_len)
  | c :: rest, cur_line, cur_len =>
      let l := new_len factor c
      if cur_len + l ≤ w then wrapLineGo factor w rest (cur_line ++ [c]) (cur_len + l)
      else (cur_line, c :: rest, cur_len)

/-- Outer loop of TextWrapper._wrap_chunks with empty indents, no
maximum line count and drop_whitespace disabled: build greedy lines,
breaking a chunk that cannot fit on any line with handle_long_word, and
emit every non-empty current line. -/
def wrap_chunksGo (factor : ℚ) (w : ℤ) : ℕ → List (List Char) → List (List Char)
  | 0, _ => []
  | _ + 1, [] => []
  | fuel + 1, c0 :: rest0 =>
      let st := wrapLineGo factor w (c0 :: rest0) [] 0
      let st2 :=
        match st.2.1 with
        | c :: _ =>
            if new_len factor c > w then
              handle_long_word factor w st.2.1 st.1 st.2.2
            else (st.1, st.2.1)
        | [] => (st.1, st.2.1)
      if st2.1.isEmpty then wrap_chunksGo factor w fuel st2.2
      else st2.1.flatten :: wrap_chunksGo factor w fuel st2.2

/-- Fuel sufficient for wrap_chunksGo: every iteration either consumes a
chunk or strictly shortens the head chunk. -/
def wrapFuel (chunks : List (List Char)) : ℕ :=
  (chunks.map List.length).sum + chunks.length + 1

/-- Model of TextWrapper._wrap_chunks.  A non-positive width raises
ValueError in the source; the model returns no lines there and the
theorems assume a positive width. -/
def wrap_chunks (factor : ℚ) (w : ℤ) (chunks : List (List Char)) : List (List Char) :=
  if w ≤ 0 then [] else wrap_chunksGo factor w (wrapFuel chunks) chunks

/-- Model of TextWrapper.wrap with fix_sentence_endings disabled: munge
whitespace, split into chunks, wrap the chunks. -/
def wrap (factor : ℚ) (w : ℤ) (text : List Char) : List (List Char) :=
  wrap_chunks factor w (splitChunks (munge text))

/-- The rational factor 1.8 used as the default CJK width factor,
written with explicit numerator and denominator so that the kernel can
evaluate computations containing it. -/
def F95 : ℚ := ⟨9, 5, by decide, by decide⟩

/-- Span of an entry: the half-open line-index range it occupies.  The
second field is named end in the source. -/
structure Span where
  start : ℕ
  stop : ℕ
deriving DecidableEq, Repr

/-- Entry: one parsed translation record. -/
structure Entry where
  span : Span
  msgid : List (List Char)
  msgstr : List (List Char)
deriving DecidableEq, Repr

/-- Model of Entry.process_text: join the fragments and escape unescaped
double quotes.  The optional pangu spacing transform is not installed,
so no spacing normalization is applied. -/
def process_text (lines : List (List Char)) : List Char :=
  escape_quotes lines.flatten

/-- Rendering of a bare quoted continuation line. -/
def quoteLine (l : List Char) : List Char := '"' :: (l ++ ['"'])

/-- Rendering of a titled line: the title, a space and the quoted
text. -/
def titleLine (title l : List Char) : List Char := title ++ (' ' :: quoteLine l)

/-- Split of a text on the literal two-character sequence of a backslash
followed by the letter n, scanning left to right. -/
def splitBSn : List Char → List (List Char)
  | [] => [[]]
  | '\\' :: 'n' :: rest => [] :: splitBSn rest
  | c :: rest =>
      match splitBSn rest with
      | h :: t => (c :: h) :: t
      | [] => [[c]]

/-- The paragraphs of the header special case: split on the escaped
newline, re-append it to every paragraph, then strip the two appended
characters from the last paragraph. -/
def headerParas (text : List Char) : List (List Char) :=
  let ps := (splitBSn text).map (fun p => p ++ ['\\', 'n'])
  ps.dropLast ++ [(ps.getLastD []).dropLast.dropLast]

/-- Model of Entry._format_text.  With reformat disabled the fragments
are rendered literally (an entry parsed from a file always has at least
one fragment; on an empty fragment list the source would raise
IndexError, the model returns no lines).  Otherwise the processed text
is emitted on a single line when it fits, and wrapped at width minus two
otherwise, with the header entry wrapping each escaped-newline paragraph
independently. -/
def format_text (e : Entry) (title : List Char) (lines : List (List Char))
    (width : ℤ) (factor : ℚ) (reformat : Bool) : List (List Char) :=
  if !reformat then
    match lines with
    | [] => []
    | l0 :: restFrags => titleLine title l0 :: restFrags.map quoteLine
  else
    let text := process_text lines
    if new_len factor title + new_len factor text + 3 ≤ width then
      [titleLine title text]
    else if e.msgid = [[]] then
      titleLine title [] ::
        ((headerParas text).flatMap fun p => (wrap factor (width - 2) p).map quoteLine)
    else
      titleLine title [] :: (wrap factor (width - 2) text).map quoteLine

/-- Model of Entry.format: format the msgid (literally when no_msgid is
set) and then the msgstr, with the patched len installed. -/
def Entry.format (e : Entry) (width : ℤ) (factor : ℚ) (no_msgid : Bool) :
    List (List Char) :=
  format_text e "msgid".toList e.msgid width factor (!no_msgid) ++
    format_text e "msgstr".toList e.msgstr width factor true

/-- Parse error: the 0-based line number at which the error was raised
and the message; the source formats them into a single string. -/
structure PErr where
  lineno : ℕ
  msg : String
deriving DecidableEq, Repr

/-- Model of str.startswith for a literal pattern. -/
def startswith : List Char → List Char → Bool
  | _, [] => true
  | [], _ :: _ => false
  | c :: l, p :: q => c = p && startswith l q

/-- Model of str.strip with no argument: remove leading and trailing
whitespace. -/
def pyStrip (l : List Char) : List Char :=
  ((l.dropWhile isPySpace).reverse.dropWhile isPySpace).reverse

/-- Truthiness of a stripped line: a line is blank when stripping it
leaves nothing. -/
def isBlank (l : List Char) : Bool := (pyStrip l).isEmpty

/-- Model of re.match against the anchored message pattern of a quote,
a greedily captured group, a closing quote and optional trailing spaces:
the line must start with a quote, and after discarding trailing spaces
must end with another quote; the capture is everything between, which
cannot contain a newline because the dot does not match one. -/
def matchMessage (l : List Char) : Option (List Char) :=
  match l with
  | '"' :: rest =>
      match rest.reverse.dropWhile (fun c => c = ' ') with
      | '"' :: bodyRev =>
          if bodyRev.reverse.contains '\n' then none else some bodyRev.reverse
      | _ => none
  | _ => none

/-- Selector for the list that receives continuation fragments: the
temp alias of Source._parse_entry.  tnone is the fresh list the source
initializes temp with, whose contents are discarded. -/
inductive Temp where
  | tnone : Temp
  | tid : Temp
  | tstr : Temp
deriving DecidableEq, Repr

/-- Model of the loop of Source._parse_entry.  pos is the index of the
next line to read, so the Python cursor lineno equals pos - 1.  The
fuel only bounds the recursion; one unit is spent per line read, and the
top-level callers pass enough for the whole file.  On termination at
line index L the cursor rests at L and the caller resumes reading at
L + 1. -/
def parse_entryGo (lines : List (List Char)) :
    ℕ → ℕ → List (List Char) → List (List Char) → Temp → ℕ →
    Except PErr (Entry × ℕ)
  | 0, pos, _, _, _, _ => .error ⟨pos, "out of fuel"⟩
  | fuel + 1, pos, msgid, msgstr, temp, start_line =>
      let finish := fun (ln : ℕ) =>
        if msgstr.isEmpty then Except.error ⟨ln, "Missing msgstr"⟩
        else Except.ok ((⟨⟨start_line, ln⟩, msgid, msgstr⟩ : Entry), ln + 1)
      if lines.length ≤ pos then finish pos
      else
        let line := lines.getD pos []
        if isBlank line then finish pos
        else if startswith line "#".toList then
          parse_entryGo lines fuel (pos + 1) msgid msgstr temp start_line
        else if startswith line "msgid".toList then
          if !msgid.isEmpty then finish (pos - 1)
          else
            match matchMessage (line.drop 6) with
            | none => .error ⟨pos, "Expect `msgid \"...\"`"⟩
            | some g => parse_entryGo lines fuel (pos + 1) [g] msgstr Temp.tid pos
        else if startswith line "msgstr".toList then
          if !msgstr.isEmpty then finish (pos - 1)
          else
            match matchMessage (line.drop 7) with
            | none => .error ⟨pos, "Expect `msgstr: \"...\"`"⟩
            | some g => parse_entryGo lines fuel (pos + 1) msgid [g] Temp.tstr start_line
        else
          match matchMessage line with
          | none => .error ⟨pos, "Expect `\"...\"`"⟩
          | some g =>
              match temp with
              | Temp.tnone => parse_entryGo lines fuel (pos + 1) msgid msgstr temp start_line
              | Temp.tid => parse_entryGo lines fuel (pos + 1) (msgid ++ [g]) msgstr temp start_line
              | Temp.tstr => parse_entryGo lines fuel (pos + 1) msgid (msgstr ++ [g]) temp start_line

/-- Result of parsing a whole file: the recorded entries, and the
entries consumed after a fuzzy marker, which the source parses and
discards so that fix leaves their lines alone. -/
structure ParseOut where
  entries : List Entry
  fuzzy : List Entry
deriving DecidableEq, Repr

/-- Model of the loop of Source.parse: skip blank and comment lines,
parse and discard an entry after a fuzzy marker, parse and record an
entry at a msgid line, fail on anything else. -/
def parseGo (lines : List (List Char)) :
    ℕ → ℕ → List Entry → List Entry → Except PErr ParseOut
  | 0, pos, _, _ => .error ⟨pos, "out of fuel"⟩
  | fuel + 1, pos, es, fz =>
      if lines.length ≤ pos then .ok ⟨es, fz⟩
      else
        let line := lines.getD pos []
        if startswith line "#, ".toList && pyStrip (line.drop 3) = "fuzzy".toList then
          match parse_entryGo lines (lines.length + 1) (pos + 1) [] [] Temp.tnone pos with
          | .error e => .error e
          | .ok (ent, pos') => parseGo lines fuel pos' es (fz ++ [ent])
        else if isBlank line || startswith line "#".toList then
          parseGo lines fuel (pos + 1) es fz
        else if startswith line "msgid".toList then
          match parse_entryGo lines (lines.length + 1) pos [] [] Temp.tnone (pos - 1) with
          | .error e => .error e
          | .ok (ent, pos') => parseGo lines fuel pos' (es ++ [ent]) fz
        else .error ⟨pos, "Unexpected token"⟩

/-- Model of Source.parse on a fresh source. -/
def parse (lines : List (List Char)) : Except PErr ParseOut :=
  parseGo lines (lines.length + 1) 0 [] []

/-- Python slice assignment lines[s:e] = f for s ≤ e within bounds. -/
def splice (l : List (List Char)) (s e : ℕ) (f : List (List Char)) :
    List (List Char) :=
  l.take s ++ f ++ l.drop e

/-- Model of Source.fix: parse, splice every recorded entry in reverse
order, and report whether the lines changed.  The unified diff of
Source.diff is non-empty exactly when the line sequences differ, so the
returned boolean is that inequality. -/
def fix (lines : List (List Char)) (line_length : ℤ) (cjk_width : ℚ)
    (no_msgid : Bool) : Except PErr (Bool × List (List Char)) :=
  match parse lines with
  | .error e => .error e
  | .ok st =>
      let newLines := st.entries.reverse.foldl
        (fun acc ent => splice acc ent.span.start ent.span.stop
          (ent.format line_length cjk_width no_msgid)) lines
      .ok (decide (newLines ≠ lines), newLines)

instance exceptDecEq {ε α : Type} [DecidableEq ε] [DecidableEq α] :
    DecidableEq (Except ε α)
  | .error e, .error f =>
      if h : e = f then .isTrue (by rw [h]) else .isFalse (fun hh => by cases hh; exact h rfl)
  | .error _, .ok _ => .isFalse (fun hh => by cases hh)
  | .ok _, .error _ => .isFalse (fun hh => by cases hh)
  | .ok a, .ok b =>
      if h : a = b then .isTrue (by rw [h]) else .isFalse (fun hh => by cases hh; exact h rfl)

/-- Contiguous block of n lines of a file starting at position p. -/
def blockAt (l : List (List Char)) (p n : ℕ) : List (List Char) :=
  (l.drop p).take n

/-- Predicate over a text: every double quote is immediately preceded
by a backslash (the first parameter tracks the character before the
current position). -/
def quotesEscapedGo : Option Char → List Char → Bool
  | _, [] => true
  | prev, c :: rest => (c ≠ '"' || prev = some '\\') && quotesEscapedGo (some c) rest

/-- Predicate over a text: every double quote is immediately preceded
by a backslash. -/
def quotesEscaped (l : List Char) : Bool := quotesEscapedGo none l

example : escape_quotes "a\"b".toList = "a\\\"b".toList := by decide

example : escape_quotes "a\\\"b".toList = "a\\\"b".toList := by decide

example : splitChunks "hello world this".toList =
    ["hello".toList, " ".toList, "world".toList, " ".toList, "this".toList] := by decide

example : splitChunks "well-known a-b".toList =
    ["well-".toList, "known".toList, " ".toList, "a-b".toList] := by decide

example : splitChunks "你好。world and 「quote」".toList =
    ["你好。".toList, "world".toList, " ".toList, "and".toList, " ".toList, "「quote」".toList] := by decide

example : splitChunks "foo.--bar x".toList =
    ["foo.".toList, "--".toList, "bar".toList, " ".toList, "x".toList] := by decide

example : splitChunks "a --b".toList = ["a".toList, " ".toList, "--b".toList] := by decide

example : splitChunks "x-- y".toList = ["x--".toList, " ".toList, "y".toList] := by decide

example : splitChunks "ab--cd".toList = ["ab".toList, "--".toList, "cd".toList] := by decide

example : wrap F95 18 "hello world this is a test of wrapping algorithm".toList =
    ["hello world this ".toList, "is a test of ".toList, "wrapping algorithm".toList] := by decide

example : wrap F95 18 (List.replicate 15 '中') =
    [List.replicate 15 '中', []] := by decide

example : new_len F95 (List.replicate 15 '中') = 27 := by decide

example : wrap F95 18 (List.intercalate [' '] (List.replicate 10 ['中'])) =
    [(List.intercalate [' '] (List.replicate 9 ['中'])) ++ [' '], ['中']] := by decide

example :
    Entry.format ⟨⟨0, 2⟩, ["".toList], ["hello".toList]⟩ 76 F95 false =
      ["msgid \"\"".toList, "msgstr \"hello\"".toList] := by decide

example : matchMessage "\"hello\"  ".toList = some "hello".toList := by decide

example : matchMessage "\"a\"b\"\"".toList = some "a\"b\"".toList := by decide

example : matchMessage "\"abc".toList = none := by decide

example :
    parse ["msgid \"a\"".toList, "msgstr \"b\"".toList] =
      .ok ⟨[⟨⟨0, 2⟩, ["a".toList], ["b".toList]⟩], []⟩ := by decide

example :
    parse ["msgid \"a\"".toList, "".toList] = .error ⟨1, "Missing msgstr"⟩ := by decide

example :
    fix ["msgid \"a\"".toList, "msgstr \"b\"".toList, "msgid \"c\"".toList, "msgstr \"d\"".toList]
      76 F95 false =
    .ok (true, ["msgid \"a\"".toList, "msgstr \"b\"".toList, "msgstr \"b\"".toList,
      "msgid \"c\"".toList, "msgstr \"d\"".toList]) := by decide

/-- The weighted sum over a string is the full-width count times the
factor plus the number of remaining characters. -/
theorem foldr_charWeight (f : ℚ) (l : List Char) :
    l.foldr (fun c acc => charWeight f c + acc) 0 =
      (countFW l : ℚ) * f + ((l.length : ℚ) - (countFW l : ℚ)) := by
  induction l with
  | nil => simp [countFW]
  | cons c t ih =>
      have hc : countFW (c :: t) = countFW t + (if is_full_width c then 1 else 0) := by
        simp [countFW, List.countP_cons]
      rw [List.foldr_cons, ih, hc, List.length_cons]
      by_cases h : is_full_width c
      · rw [charWeight, if_pos h, if_pos h]
        push_cast
        ring
      · rw [charWeight, if_neg h, if_neg h]
        push_cast
        ring

/-- Truncation towards zero of an integer divided by a positive natural
number is integer t-division. -/
theorem py_int_intCast_div_natCast (a : ℤ) (d : ℕ) (hd : 0 < d) :
    py_int ((a : ℚ) / (d : ℚ)) = a.tdiv d := by
  have hd' : (0 : ℚ) < (d : ℚ) := by exact_mod_cast hd
  rcases le_or_lt 0 a with ha | ha
  · have hq : (0 : ℚ) ≤ (a : ℚ) / (d : ℚ) :=
      div_nonneg (by exact_mod_cast ha) hd'.le
    rw [py_int, if_pos hq, Rat.floor_intCast_div_natCast]
    exact (Int.tdiv_eq_ediv ha (by exact_mod_cast hd.le)).symm
  · have hq : ¬ (0 : ℚ) ≤ (a : ℚ) / (d : ℚ) := by
      have : (a : ℚ) / (d : ℚ) < 0 :=
        div_neg_of_neg_of_pos (by exact_mod_cast ha) hd'
      linarith
    rw [py_int, if_neg hq]
    have hceil : ⌈(a : ℚ) / (d : ℚ)⌉ = -⌊((-a : ℤ) : ℚ) / (d : ℚ)⌋ := by
      have hneg : ((-a : ℤ) : ℚ) / (d : ℚ) = -((a : ℚ) / (d : ℚ)) := by
        push_cast
        ring
      rw [hneg, Int.floor_neg, neg_neg]
    rw [hceil, Rat.floor_intCast_div_natCast]
    have h3 : (-a).tdiv d = (-a) / (d : ℤ) :=
      Int.tdiv_eq_ediv (by linarith) (by exact_mod_cast hd.le)
    have h2 : (-a).tdiv d = -(a.tdiv d) := Int.neg_tdiv _ _
    omega

/-- The computable patched len agrees with the reference model taken
from the source. -/
theorem new_len_eq_spec (f : ℚ) (l : List Char) : new_len f l = new_len_spec f l := by
  have hd : 0 < f.den := f.den_pos
  have hdq : ((f.den : ℚ)) ≠ 0 := by
    exact_mod_cast hd.ne'
  have hf : (f.num : ℚ) / (f.den : ℚ) = f := Rat.num_div_den f
  have hfd : f * (f.den : ℚ) = (f.num : ℚ) := by
    nth_rewrite 1 [← hf]
    rw [div_mul_cancel₀ _ hdq]
  have key : (countFW l : ℚ) * f + ((l.length : ℚ) - (countFW l : ℚ)) =
      ((f.num * countFW l + f.den * ((l.length : ℤ) - countFW l) : ℤ) : ℚ) / (f.den : ℚ) := by
    rw [eq_div_iff hdq]
    push_cast
    linear_combination (countFW l : ℚ) * hfd
  rw [new_len, new_len_spec, foldr_charWeight, key]
  exact (py_int_intCast_div_natCast _ _ hd).symm

/-- Every range of the East-Asian-width table starts at code point 161
or higher, so ASCII characters are never full width. -/
theorem is_full_width_ascii {c : Char} (h : c.toNat < 128) :
    is_full_width c = false := by
  have hall : eawWAFRanges.all (fun r => decide (161 ≤ r.1)) = true := by decide
  rw [is_full_width, inRanges, List.any_eq_false]
  intro r hr
  have h161 : 161 ≤ r.1 := by
    have := (List.all_eq_true.mp hall) r hr
    exact of_decide_eq_true this
  have : ¬ (r.1 ≤ c.toNat) := by omega
  simp [this]

/-- C3 counterexample: the claim says a string of N full-width
characters has display width N * factor, but the patched len truncates
the float sum with int(), so one CJK character at factor 1.8 has
display width 1, not 1.8. -/
theorem C3_counterexample_truncation :
    is_full_width '中' = true ∧
    ((new_len_spec F95 ['中'] : ℚ) ≠ (([('中' : Char)].length : ℚ)) * F95) := by
  refine ⟨by decide, ?_⟩
  have h1 : new_len_spec F95 ['中'] = 1 := by
    rw [← new_len_eq_spec]
    decide
  have h2 : F95 = (9 : ℚ) / 5 := by
    rw [F95, Rat.mk'_eq_divInt, Rat.divInt_eq_div]
    norm_num
  rw [h1, h2]
  norm_num

/-- C3 amended: for a string of ASCII characters the display width is
the character count, and for a string of characters classified Wide,
Fullwidth or Ambiguous the display width is the integer truncation of
N * factor (the sum is truncated by int() before being returned). -/
theorem C3_display_width (f : ℚ) (l1 l2 : List Char)
    (h1 : ∀ c ∈ l1, c.toNat < 128) (h2 : ∀ c ∈ l2, is_full_width c = true) :
    new_len_spec f l1 = l1.length ∧
    new_len_spec f l2 = py_int ((l2.length : ℚ) * f) := by
  constructor
  · have hc : countFW l1 = 0 := by
      rw [countFW, List.countP_eq_zero]
      intro c hcl
      simp [is_full_width_ascii (h1 c hcl)]
    rw [new_len_spec, foldr_charWeight, hc]
    have harg : ((0 : ℕ) : ℚ) * f + ((l1.length : ℚ) - ((0 : ℕ) : ℚ)) = (l1.length : ℚ) := by
      push_cast
      ring
    rw [harg, py_int, if_pos (by positivity), Int.floor_natCast]
  · have hc : countFW l2 = l2.length := by
      rw [countFW, List.countP_eq_length]
      intro c hcl
      simp [h2 c hcl]
    rw [new_len_spec, foldr_charWeight, hc]
    congr 1
    ring

/-- C3 witness: the amended statement at an ASCII string and a
two-character CJK string with the default factor. -/
theorem C3_display_width_witness :
    (∀ c ∈ "hi!".toList, c.toNat < 128) ∧
    (∀ c ∈ [('中' : Char), '文'], is_full_width c = true) ∧
    (new_len_spec F95 "hi!".toList = ("hi!".toList.length : ℤ) ∧
     new_len_spec F95 [('中' : Char), '文'] =
       py_int ((([('中' : Char), '文'].length : ℚ)) * F95)) :=
  ⟨by decide, by decide, C3_display_width F95 _ _ (by decide) (by decide)⟩

/-- C10: escape_quotes examines only the single character before a
double quote, so the three-character input of two backslashes and a
quote is returned unchanged even though its backslash is itself
escaped. -/
theorem C10_escaped_backslash_quote :
    escape_quotes ['\\', '\\', '"'] = ['\\', '\\', '"'] := by decide

/-- C2: fix is not idempotent.  On two entries abutting with no blank
separator the span recorded for the first entry ends one line early, so
the first fix duplicates the trailing line of the first entry, and a
second fix on the output raises ParseError (line 2, Unexpected token)
instead of returning false. -/
theorem C2_fix_not_idempotent :
    fix ["msgid \"a\"".toList, "msgstr \"b\"".toList, "msgid \"c\"".toList,
        "msgstr \"d\"".toList] 76 F95 false =
      .ok (true, ["msgid \"a\"".toList, "msgstr \"b\"".toList, "msgstr \"b\"".toList,
        "msgid \"c\"".toList, "msgstr \"d\"".toList]) ∧
    fix ["msgid \"a\"".toList, "msgstr \"b\"".toList, "msgstr \"b\"".toList,
        "msgid \"c\"".toList, "msgstr \"d\"".toList] 76 F95 false =
      .error ⟨2, "Unexpected token"⟩ :=
  ⟨by decide, by decide⟩

/-- In the output of escapeGo every double quote is preceded by a
backslash, for any starting lookbehind state. -/
theorem escapeGo_escaped (l : List Char) :
    ∀ prev, quotesEscapedGo prev (escapeGo prev l) = true := by
  induction l with
  | nil => intro prev; rfl
  | cons c rest ih =>
      intro prev
      by_cases h : c = '"' ∧ prev ≠ some '\\'
      · rw [escapeGo, if_pos (by simp [h.1, h.2])]
        have h2 := ih (some c)
        rw [h.1] at h2 ⊢
        simp [quotesEscapedGo, h2]
      · rw [escapeGo, if_neg (by simpa [not_and_or] using h)]
        have h2 := ih (some c)
        rcases not_and_or.mp h with h3 | h3
        · simp [quotesEscapedGo, h3, h2]
        · simp only [not_not] at h3
          simp [quotesEscapedGo, h3, h2]

/-- escapeGo leaves a text unchanged when every double quote in it is
already preceded by a backslash. -/
theorem escapeGo_id (l : List Char) :
    ∀ prev, quotesEscapedGo prev l = true → escapeGo prev l = l := by
  induction l with
  | nil => intro prev _; rfl
  | cons c rest ih =>
      intro prev h
      rw [quotesEscapedGo] at h
      have h1 := (Bool.and_eq_true _ _).mp h
      have hrest := ih (some c) h1.2
      have hc : ¬ (c = '"' ∧ prev ≠ some '\\') := by
        rcases Bool.or_eq_true _ _ |>.mp h1.1 with h2 | h2
        · intro hcc
          exact (of_decide_eq_true h2) hcc.1
        · intro hcc
          exact hcc.2 (of_decide_eq_true h2)
      rw [escapeGo, if_neg (by simpa [not_and_or] using hc), hrest]

/-- C6: escape_quotes escapes every double quote not already preceded
by a backslash (so in its output every double quote is preceded by a
backslash), and it leaves a text whose double quotes are all already
escaped unchanged (no double escaping). -/
theorem C6_escape_quotes (l : List Char) :
    quotesEscaped (escape_quotes l) = true ∧
    (quotesEscaped l = true → escape_quotes l = l) :=
  ⟨escapeGo_escaped l none, escapeGo_id l none⟩

/-- C6 witness: a text with an unescaped quote gets it escaped, and the
escaped result is then left unchanged. -/
theorem C6_escape_quotes_witness :
    quotesEscaped (escape_quotes "say \"hi\"".toList) = true ∧
    quotesEscaped "say \\\"hi\\\"".toList = true ∧
    escape_quotes "say \\\"hi\\\"".toList = "say \\\"hi\\\"".toList := by
  refine ⟨(C6_escape_quotes "say \"hi\"".toList).1, by decide, ?_⟩
  exact (C6_escape_quotes "say \\\"hi\\\"".toList).2 (by decide)

/-- The word scanner produces a chunk and a remainder that partition
its input, and the remainder is no longer than the input. -/
theorem scanWord_spec (rem : List Char) : ∀ ctx acc,
    (scanWord ctx acc rem).1 ++ (scanWord ctx acc rem).2 = acc.reverse ++ rem ∧
    (scanWord ctx acc rem).2.length ≤ rem.length := by
  induction rem with
  | nil =>
      intro ctx acc
      rw [scanWord]
      simp [termHyphen, termEnd]
  | cons c rest ih =>
      intro ctx acc
      rw [scanWord]
      by_cases h1 : termHyphen ctx (c :: rest) = true
      · have hc : c = '-' := by
          rw [termHyphen] at h1
          exact of_decide_eq_true ((Bool.and_eq_true _ _).mp
            ((Bool.and_eq_true _ _).mp h1).1).1
        subst hc
        rw [if_pos h1]
        constructor
        · simp
        · simp
      · rw [if_neg h1]
        by_cases h2 : termEnd (c :: rest) = true
        · rw [if_pos h2]
          constructor
          · simp
          · simp
        · rw [if_neg h2]
          by_cases h3 : (termEmDashAhead ctx (c :: rest) || termClosing ctx (c :: rest) ||
              termOpening (c :: rest)) = true
          · rw [if_pos h3]
            constructor
            · simp
            · simp
          · rw [if_neg h3]
            have := ih (c :: ctx) (c :: acc)
            constructor
            · rw [this.1]
              simp
            · exact Nat.le_succ_of_le this.2

/-- Dropping the length of the matched whitespace or hyphen run reaches
the dropWhile remainder. -/
theorem drop_takeWhile_length (p : Char → Bool) (l : List Char) :
    l.drop (l.takeWhile p).length = l.dropWhile p := by
  nth_rewrite 2 [← List.takeWhile_append_dropWhile (p := p) (l := l)]
  exact List.drop_left _ _

/-- The chunks produced by one pass of the word-separator split
concatenate back to the input text. -/
theorem splitChunksGo_flatten : ∀ fuel left rest, rest.length < fuel →
    (splitChunksGo fuel left rest).flatten = rest := by
  intro fuel
  induction fuel with
  | zero => intro left rest h; omega
  | succ fuel ih =>
      intro left rest h
      match rest with
      | [] => rfl
      | c :: rest' =>
          rw [splitChunksGo.eq_def]
          dsimp only
          by_cases hws : isWsTW c
          · rw [if_pos hws]
            have hrun : ((c :: rest').takeWhile isWsTW).length ≥ 1 := by
              rw [List.takeWhile_cons_of_pos hws]
              simp
            have hlen : ((c :: rest').drop ((c :: rest').takeWhile isWsTW).length).length < fuel := by
              rw [List.length_drop]
              simp only [List.length_cons] at h ⊢
              omega
            rw [List.flatten_cons, ih _ _ hlen, drop_takeWhile_length,
              List.takeWhile_append_dropWhile]
          · rw [if_neg hws]
            split
            · rename_i hem
              have hrun : ((c :: rest').takeWhile (fun x => x = '-')).length ≥ 1 := by
                have h2 : (2 : ℕ) ≤ ((c :: rest').takeWhile (fun x => x = '-')).length := by
                  have := ((Bool.and_eq_true _ _).mp
                    ((Bool.and_eq_true _ _).mp hem).2).1
                  exact of_decide_eq_true this
                omega
              have hlen : ((c :: rest').drop
                  ((c :: rest').takeWhile (fun x => x = '-')).length).length < fuel := by
                rw [List.length_drop]
                simp only [List.length_cons] at h ⊢
                omega
              rw [List.flatten_cons, ih _ _ hlen, drop_takeWhile_length,
                List.takeWhile_append_dropWhile]
            · have hs := scanWord_spec rest' (c :: left) [c]
              have hlen : (scanWord (c :: left) [c] rest').2.length < fuel := by
                have := hs.2
                simp only [List.length_cons] at h
                omega
              rw [List.flatten_cons, ih _ _ hlen]
              have := hs.1
              simpa using this

/-- The chunk split partitions the text: the chunks concatenate back to
the input. -/
theorem splitChunks_flatten (text : List Char) :
    (splitChunks text).flatten = text :=
  splitChunksGo_flatten _ _ _ (Nat.lt_succ_self _)

/-- Every character of every chunk is a character of the split text. -/
theorem splitChunks_mem {text : List Char} {chunk : List Char} {c : Char}
    (hch : chunk ∈ splitChunks text) (hc : c ∈ chunk) : c ∈ text := by
  rw [← splitChunks_flatten text]
  exact List.mem_flatten.mpr ⟨chunk, hch, hc⟩

/-- The patched len of the empty string is zero. -/
theorem new_len_nil (f : ℚ) : new_len f [] = 0 := by
  simp [new_len, countFW]

/-- On a string with no full-width character the patched len is the
character count, whatever the factor. -/
theorem new_len_unit (f : ℚ) (l : List Char)
    (h : ∀ c ∈ l, is_full_width c = false) : new_len f l = l.length := by
  have hd : (f.den : ℤ) ≠ 0 := by
    exact_mod_cast f.den_pos.ne'
  have hc : countFW l = 0 := by
    rw [countFW, List.countP_eq_zero]
    intro c hcl
    simp [h c hcl]
  rw [new_len, hc]
  push_cast
  rw [mul_zero, zero_add, sub_zero, Int.mul_tdiv_cancel_left _ hd]

/-- Sums of patched lens over unit-width chunks are sums of lengths. -/
theorem sum_new_len_unit (f : ℚ) (l : List (List Char))
    (h : ∀ ch ∈ l, ∀ c ∈ ch, is_full_width c = false) :
    (l.map (new_len f)).sum = ((l.map List.length).sum : ℤ) := by
  induction l with
  | nil => simp
  | cons ch t ih =>
      simp only [List.map_cons, List.sum_cons]
      rw [new_len_unit f ch (h ch (by simp)), ih (fun x hx c hc => h x (by simp [hx]) c hc)]
      push_cast
      ring

/-- The hyphen search never reports a position at or beyond its
bound. -/
theorem rfindHyphen_succ_le (l : List Char) (b : ℕ) :
    rfindHyphen l b + 1 ≤ (b : ℤ) ∨ rfindHyphen l b = -1 := by
  rw [rfindHyphen]
  cases hfind : (l.take b).reverse.findIdx? (fun c => c = '-') with
  | none => right; rfl
  | some k =>
      left
      have hlen : (l.take b).length ≤ b := by
        simp [List.length_take]
      simp only []
      omega

/-- Specification of the inner greedy loop: the popped chunks extend the
current line in order, the accumulated length is the sum of the popped
patched lens, nothing happens when nothing is popped, the accumulated
length never exceeds the width when it started below it, and the first
remaining chunk does not fit. -/
theorem wrapLineGo_spec (f : ℚ) (w : ℤ) :
    ∀ chunks cl len,
      ∃ popped,
        (wrapLineGo f w chunks cl len).1 = cl ++ popped ∧
        popped ++ (wrapLineGo f w chunks cl len).2.1 = chunks ∧
        (wrapLineGo f w chunks cl len).2.2 = len + (popped.map (new_len f)).sum ∧
        (popped = [] → wrapLineGo f w chunks cl len = (cl, chunks, len)) ∧
        (len ≤ w → (wrapLineGo f w chunks cl len).2.2 ≤ w) ∧
        (∀ ch rest2, (wrapLineGo f w chunks cl len).2.1 = ch :: rest2 →
          w < (wrapLineGo f w chunks cl len).2.2 + new_len f ch) := by
  intro chunks
  induction chunks with
  | nil =>
      intro cl len
      refine ⟨[], by simp [wrapLineGo], by simp [wrapLineGo], by simp [wrapLineGo],
        fun _ => by simp [wrapLineGo], fun h => by simpa [wrapLineGo] using h, ?_⟩
      intro ch rest2 hcontra
      rw [wrapLineGo] at hcontra
      simp at hcontra
  | cons c rest ih =>
      intro cl len
      rw [wrapLineGo]
      by_cases hif : len + new_len f c ≤ w
      · rw [if_pos hif]
        obtain ⟨popped', h1, h2, h3, h4, h5, h6⟩ := ih (cl ++ [c]) (len + new_len f c)
        refine ⟨c :: popped', ?_, ?_, ?_, ?_, ?_, h6⟩
        · rw [h1, List.append_assoc]
          rfl
        · rw [List.cons_append, h2]
        · rw [h3, List.map_cons, List.sum_cons]
          ring
        · intro hcontra
          exact absurd hcontra (List.cons_ne_nil _ _)
        · intro _
          exact h5 hif
      · rw [if_neg hif]
        refine ⟨[], by simp, by simp, by simp, fun _ => rfl, fun h => h, ?_⟩
        intro ch rest2 heq
        have heq' : c :: rest = ch :: rest2 := heq
        have hc : c = ch := (List.cons.inj heq').1
        subst hc
        show w < len + new_len f c
        omega

/-- Specification of the long-word break: it moves a prefix of the head
chunk onto the line whose character count does not exceed the remaining
space, and takes at least one character when the line is empty. -/
theorem handle_long_word_spec (f : ℚ) (w : ℤ) (ch : List Char)
    (rest cl : List (List Char)) (len : ℤ) (hw : 1 ≤ w) (hlw : len ≤ w) :
    ∃ n : ℕ,
      handle_long_word f w (ch :: rest) cl len = (cl ++ [ch.take n], ch.drop n :: rest) ∧
      (n : ℤ) ≤ w - len ∧
      (len = 0 → 1 ≤ n) := by
  have hnn : (0 : ℤ) ≤ w - len := by omega
  have hsl : (if w < 1 then (1 : ℤ) else w - len) = w - len := if_neg (by omega)
  rw [handle_long_word]
  dsimp only
  rw [hsl]
  by_cases h1 : new_len f ch > w - len
  · rw [if_pos h1]
    by_cases h2 : (rfindHyphen ch (w - len).toNat > 0 &&
        (ch.take (rfindHyphen ch (w - len).toNat).toNat).any (fun c => c ≠ '-')) = true
    · rw [if_pos h2]
      have hpos : rfindHyphen ch (w - len).toNat > 0 :=
        of_decide_eq_true ((Bool.and_eq_true _ _).mp h2).1
      have hle : rfindHyphen ch (w - len).toNat + 1 ≤ ((w - len).toNat : ℤ) := by
        rcases rfindHyphen_succ_le ch (w - len).toNat with h | h
        · exact h
        · omega
      refine ⟨(rfindHyphen ch (w - len).toNat + 1).toNat, rfl, ?_, fun _ => ?_⟩
      · rw [Int.toNat_of_nonneg (by omega)]
        rw [Int.toNat_of_nonneg hnn] at hle
        omega
      · omega
    · rw [if_neg h2]
      refine ⟨(w - len).toNat, rfl, ?_, fun h0 => ?_⟩
      · rw [Int.toNat_of_nonneg hnn]
      · subst h0
        omega
  · rw [if_neg h1]
    refine ⟨(w - len).toNat, rfl, ?_, fun h0 => ?_⟩
    · rw [Int.toNat_of_nonneg hnn]
    · subst h0
      omega

/-- Fuel additivity over a chunk-list decomposition. -/
theorem wrapFuel_append (xs ys : List (List Char)) :
    wrapFuel (xs ++ ys) = (xs.map List.length).sum + xs.length + wrapFuel ys := by
  rw [wrapFuel, wrapFuel, List.map_append, List.sum_append, List.length_append]
  omega

/-- The wrapped lines concatenate back to the concatenation of the
chunks: no text is lost or duplicated by the greedy wrap. -/
theorem wrap_chunksGo_flatten (f : ℚ) (w : ℤ) (hw : 1 ≤ w) :
    ∀ fuel chunks, wrapFuel chunks ≤ fuel →
      (wrap_chunksGo f w fuel chunks).flatten = chunks.flatten := by
  intro fuel
  induction fuel with
  | zero =>
      intro chunks h
      rw [wrapFuel] at h
      omega
  | succ fuel ih =>
      intro chunks h
      match chunks with
      | [] => rfl
      | c0 :: rest0 =>
          have hfe : 1 ≤ fuel := by
            rw [wrapFuel] at h
            simp only [List.length_cons] at h
            omega
          rw [wrap_chunksGo]
          obtain ⟨popped, hp1, hp2, hp3, hp4, hp5, hp6⟩ :=
            wrapLineGo_spec f w (c0 :: rest0) [] 0
          simp only [List.nil_append] at hp1
          cases hrem : (wrapLineGo f w (c0 :: rest0) [] 0).2.1 with
          | nil =>
              rw [hrem] at hp2
              rw [List.append_nil] at hp2
              dsimp only
              have hne : (wrapLineGo f w (c0 :: rest0) [] 0).1.isEmpty = false := by
                rw [hp1, hp2]
                rfl
              rw [hne, if_neg Bool.false_ne_true]
              rw [List.flatten_cons, ih [] (by rw [wrapFuel]; simp; omega),
                hp1, hp2]
              simp
          | cons ch r2 =>
              dsimp only
              by_cases hbig : new_len f ch > w
              · rw [if_pos hbig]
                obtain ⟨n, hh1, hh2, hh3⟩ :=
                  handle_long_word_spec f w ch r2 (wrapLineGo f w (c0 :: rest0) [] 0).1
                    (wrapLineGo f w (c0 :: rest0) [] 0).2.2 hw (hp5 (by omega))
                rw [hh1]
                dsimp only
                have hne : ((wrapLineGo f w (c0 :: rest0) [] 0).1 ++ [ch.take n]).isEmpty
                    = false := by
                  rw [List.isEmpty_eq_false_iff_exists_mem]
                  exact ⟨ch.take n, by simp⟩
                rw [hne, if_neg Bool.false_ne_true]
                have hfuel : wrapFuel (ch.drop n :: r2) ≤ fuel := by
                  have hdecomp : wrapFuel (c0 :: rest0) =
                      (popped.map List.length).sum + popped.length + wrapFuel (ch :: r2) := by
                    rw [← hp2, hrem, wrapFuel_append]
                  have hw1 : wrapFuel (ch :: r2) =
                      ch.length + 1 + wrapFuel r2 := by
                    rw [wrapFuel, wrapFuel]
                    simp
                    omega
                  have hw2 : wrapFuel (ch.drop n :: r2) =
                      (ch.length - n) + 1 + wrapFuel r2 := by
                    rw [wrapFuel, wrapFuel]
                    simp [List.length_drop]
                    omega
                  have hprog : 1 ≤ (popped.map List.length).sum + popped.length + min n ch.length := by
                    by_cases hpe : popped = []
                    · subst hpe
                      have hst := hp4 rfl
                      have hlen0 : (wrapLineGo f w (c0 :: rest0) [] 0).2.2 = 0 := by
                        rw [hst]
                      have hn1 : 1 ≤ n := hh3 hlen0
                      have hch : ch ≠ [] := by
                        intro hch0
                        have := hp6 ch r2 hrem
                        rw [hch0, new_len_nil, hlen0] at this
                        omega
                      have : 1 ≤ ch.length := by
                        cases ch with
                        | nil => exact absurd rfl hch
                        | cons a b => simp
                      simp
                      omega
                    · have : 1 ≤ popped.length := by
                        cases popped with
                        | nil => exact absurd rfl hpe
                        | cons a b => simp
                      omega
                  omega
                rw [List.flatten_cons, ih _ hfuel, hp1, ← hp2, hrem]
                simp only [List.flatten_append, List.flatten_cons, List.append_assoc,
                  List.flatten_nil, List.append_nil]
                rw [← List.append_assoc (List.take n ch), List.take_append_drop]
              · rw [if_neg hbig]
                have hpe : popped ≠ [] := by
                  intro hpe0
                  subst hpe0
                  have hst := hp4 rfl
                  have := hp6 ch r2 hrem
                  rw [hst] at this
                  dsimp only at this
                  omega
                have hne : (wrapLineGo f w (c0 :: rest0) [] 0).1.isEmpty = false := by
                  rw [hp1, List.isEmpty_eq_false_iff_exists_mem]
                  cases popped with
                  | nil => exact absurd rfl hpe
                  | cons a b => exact ⟨a, by simp⟩
                rw [hne, if_neg Bool.false_ne_true]
                have hfuel : wrapFuel (ch :: r2) ≤ fuel := by
                  have hdecomp : wrapFuel (c0 :: rest0) =
                      (popped.map List.length).sum + popped.length + wrapFuel (ch :: r2) := by
                    rw [← hp2, hrem, wrapFuel_append]
                  have : 1 ≤ popped.length := by
                    cases popped with
                    | nil => exact absurd rfl hpe
                    | cons a b => simp
                  omega
                rw [List.flatten_cons, ih _ hfuel, hp1, ← hp2, hrem]
                simp [List.flatten_append]

/-- Characters of a concatenation of unit-width chunks are unit
width. -/
theorem flatten_unit {pl : List (List Char)}
    (hu : ∀ ch ∈ pl, ∀ c ∈ ch, is_full_width c = false) :
    ∀ c ∈ pl.flatten, is_full_width c = false := by
  intro c hc
  obtain ⟨ch, hch, hcc⟩ := List.mem_flatten.mp hc
  exact hu ch hch c hcc

/-- Every line produced by the greedy wrap from unit-width chunks has
unit-width characters and character count at most the width. -/
theorem wrap_chunksGo_bound (f : ℚ) (w : ℤ) (hw : 1 ≤ w) :
    ∀ fuel chunks, wrapFuel chunks ≤ fuel →
      (∀ ch ∈ chunks, ∀ c ∈ ch, is_full_width c = false) →
      ∀ line ∈ wrap_chunksGo f w fuel chunks,
        (∀ c ∈ line, is_full_width c = false) ∧ (line.length : ℤ) ≤ w := by
  intro fuel
  induction fuel with
  | zero =>
      intro chunks h
      rw [wrapFuel] at h
      omega
  | succ fuel ih =>
      intro chunks h hunit
      match chunks with
      | [] => intro line hline; simp [wrap_chunksGo] at hline
      | c0 :: rest0 =>
          have hfe : 1 ≤ fuel := by
            have h2 := h
            rw [wrapFuel] at h2
            simp only [List.length_cons] at h2
            omega
          rw [wrap_chunksGo]
          obtain ⟨popped, hp1, hp2, hp3, hp4, hp5, hp6⟩ :=
            wrapLineGo_spec f w (c0 :: rest0) [] 0
          simp only [List.nil_append] at hp1
          have hpu : ∀ ch ∈ popped, ∀ c ∈ ch, is_full_width c = false := by
            intro ch hch
            exact hunit ch (by rw [← hp2]; exact List.mem_append_left _ hch)
          have hplen : ((popped.flatten.length : ℤ)) =
              (wrapLineGo f w (c0 :: rest0) [] 0).2.2 := by
            rw [hp3, sum_new_len_unit f popped hpu, List.length_flatten]
            push_cast
            ring
          cases hrem : (wrapLineGo f w (c0 :: rest0) [] 0).2.1 with
          | nil =>
              rw [hrem] at hp2
              rw [List.append_nil] at hp2
              dsimp only
              have hne : (wrapLineGo f w (c0 :: rest0) [] 0).1.isEmpty = false := by
                rw [hp1, hp2]
                rfl
              rw [hne, if_neg Bool.false_ne_true]
              intro line hline
              rcases List.mem_cons.mp hline with hl | hl
              · subst hl
                rw [hp1]
                refine ⟨flatten_unit hpu, ?_⟩
                rw [hplen]
                exact hp5 (by omega)
              · have := ih [] (by rw [wrapFuel]; simp; omega) (by simp) line hl
                exact this
          | cons ch r2 =>
              have hchm : ch ∈ c0 :: rest0 := by
                rw [← hp2, hrem]
                exact List.mem_append_right _ (by simp)
              have hr2 : ∀ x ∈ r2, ∀ c ∈ x, is_full_width c = false := by
                intro x hx
                exact hunit x (by
                  rw [← hp2, hrem]
                  exact List.mem_append_right _ (by simp [hx]))
              dsimp only
              by_cases hbig : new_len f ch > w
              · rw [if_pos hbig]
                obtain ⟨n, hh1, hh2, hh3⟩ :=
                  handle_long_word_spec f w ch r2 (wrapLineGo f w (c0 :: rest0) [] 0).1
                    (wrapLineGo f w (c0 :: rest0) [] 0).2.2 hw (hp5 (by omega))
                rw [hh1]
                dsimp only
                have hne : ((wrapLineGo f w (c0 :: rest0) [] 0).1 ++ [ch.take n]).isEmpty
                    = false := by
                  rw [List.isEmpty_eq_false_iff_exists_mem]
                  exact ⟨ch.take n, by simp⟩
                rw [hne, if_neg Bool.false_ne_true]
                intro line hline
                rcases List.mem_cons.mp hline with hl | hl
                · subst hl
                  constructor
                  · intro c hc
                    rw [hp1, List.flatten_append] at hc
                    rcases List.mem_append.mp hc with hc2 | hc2
                    · exact flatten_unit hpu c hc2
                    · have : c ∈ ch.take n := by simpa using hc2
                      exact hunit ch hchm c (List.mem_of_mem_take this)
                  · rw [hp1, List.flatten_append]
                    rw [List.length_append]
                    have h1 : ((ch.take n).length : ℤ) ≤ n := by
                      rw [List.length_take]
                      simp
                    have h2 : ([ch.take n] : List (List Char)).flatten.length
                        = (ch.take n).length := by
                      simp
                    rw [h2]
                    have := hplen
                    push_cast
                    omega
                · have hfuel : wrapFuel (ch.drop n :: r2) ≤ fuel := by
                    have hdecomp : wrapFuel (c0 :: rest0) =
                        (popped.map List.length).sum + popped.length + wrapFuel (ch :: r2) := by
                      rw [← hp2, hrem, wrapFuel_append]
                    have hw1 : wrapFuel (ch :: r2) = ch.length + 1 + wrapFuel r2 := by
                      rw [wrapFuel, wrapFuel]
                      simp
                      omega
                    have hw2 : wrapFuel (ch.drop n :: r2) =
                        (ch.length - n) + 1 + wrapFuel r2 := by
                      rw [wrapFuel, wrapFuel]
                      simp [List.length_drop]
                      omega
                    have hprog : 1 ≤ (popped.map List.length).sum + popped.length
                        + min n ch.length := by
                      by_cases hpe : popped = []
                      · subst hpe
                        have hst := hp4 rfl
                        have hlen0 : (wrapLineGo f w (c0 :: rest0) [] 0).2.2 = 0 := by
                          rw [hst]
                        have hn1 : 1 ≤ n := hh3 hlen0
                        have hch : ch ≠ [] := by
                          intro hch0
                          have := hp6 ch r2 hrem
                          rw [hch0, new_len_nil, hlen0] at this
                          omega
                        have : 1 ≤ ch.length := by
                          cases ch with
                          | nil => exact absurd rfl hch
                          | cons a b => simp
                        simp
                        omega
                      · have : 1 ≤ popped.length := by
                          cases popped with
                          | nil => exact absurd rfl hpe
                          | cons a b => simp
                        omega
                    omega
                  have hsub : ∀ x ∈ ch.drop n :: r2, ∀ c ∈ x, is_full_width c = false := by
                    intro x hx
                    rcases List.mem_cons.mp hx with hx2 | hx2
                    · subst hx2
                      intro c hc
                      exact hunit ch hchm c (List.mem_of_mem_drop hc)
                    · exact hr2 x hx2
                  exact ih _ hfuel hsub line hl
              · rw [if_neg hbig]
                have hpe : popped ≠ [] := by
                  intro hpe0
                  subst hpe0
                  have hst := hp4 rfl
                  have := hp6 ch r2 hrem
                  rw [hst] at this
                  dsimp only at this
                  omega
                have hne : (wrapLineGo f w (c0 :: rest0) [] 0).1.isEmpty = false := by
                  rw [hp1, List.isEmpty_eq_false_iff_exists_mem]
                  cases popped with
                  | nil => exact absurd rfl hpe
                  | cons a b => exact ⟨a, by simp⟩
                rw [hne, if_neg Bool.false_ne_true]
                intro line hline
                rcases List.mem_cons.mp hline with hl | hl
                · subst hl
                  rw [hp1]
                  refine ⟨flatten_unit hpu, ?_⟩
                  rw [hplen]
                  exact hp5 (by omega)
                · have hfuel : wrapFuel (ch :: r2) ≤ fuel := by
                    have hdecomp : wrapFuel (c0 :: rest0) =
                        (popped.map List.length).sum + popped.length + wrapFuel (ch :: r2) := by
                      rw [← hp2, hrem, wrapFuel_append]
                    have : 1 ≤ popped.length := by
                      cases popped with
                      | nil => exact absurd rfl hpe
                      | cons a b => simp
                    omega
                  have hsub : ∀ x ∈ ch :: r2, ∀ c ∈ x, is_full_width c = false := by
                    intro x hx
                    rcases List.mem_cons.mp hx with hx2 | hx2
                    · subst hx2
                      exact hunit _ hchm
                    · exact hr2 x hx2
                  exact ih _ hfuel hsub line hl

/-- The lines of a wrap concatenate to the munged text. -/
theorem wrap_flatten (f : ℚ) (w : ℤ) (hw : 1 ≤ w) (text : List Char) :
    (wrap f w text).flatten = munge text := by
  rw [wrap, wrap_chunks, if_neg (by omega)]
  rw [wrap_chunksGo_flatten f w hw _ _ le_rfl, splitChunks_flatten]

/-- Every character produced by tab expansion is a character of the
input or a space. -/
theorem expandtabsGo_mem : ∀ col text c, c ∈ expandtabsGo col text →
    c ∈ text ∨ c = ' ' := by
  intro col text
  induction text generalizing col with
  | nil => intro c hc; simp [expandtabsGo] at hc
  | cons x rest ih =>
      intro c hc
      rw [expandtabsGo] at hc
      by_cases hx : x = '\t'
      · rw [if_pos hx] at hc
        rcases List.mem_append.mp hc with hc2 | hc2
        · right
          exact (List.eq_of_mem_replicate hc2)
        · rcases ih _ c hc2 with h | h
          · left; exact List.mem_cons_of_mem _ h
          · right; exact h
      · rw [if_neg hx] at hc
        by_cases hx2 : (x = '\n' || x = '\r') = true
        · rw [if_pos hx2] at hc
          rcases List.mem_cons.mp hc with hc2 | hc2
          · left; exact hc2 ▸ List.mem_cons_self _ _
          · rcases ih _ c hc2 with h | h
            · left; exact List.mem_cons_of_mem _ h
            · right; exact h
        · rw [if_neg hx2] at hc
          rcases List.mem_cons.mp hc with hc2 | hc2
          · left; exact hc2 ▸ List.mem_cons_self _ _
          · rcases ih _ c hc2 with h | h
            · left; exact List.mem_cons_of_mem _ h
            · right; exact h

/-- Munging preserves the ASCII property. -/
theorem munge_ascii {text : List Char} (h : ∀ c ∈ text, c.toNat < 128) :
    ∀ c ∈ munge text, c.toNat < 128 := by
  intro c hc
  rw [munge] at hc
  obtain ⟨d, hd, hdc⟩ := List.mem_map.mp hc
  rcases expandtabsGo_mem 0 text d hd with h2 | h2
  · by_cases hws : isWsTW d
    · rw [if_pos hws] at hdc
      subst hdc
      decide
    · rw [if_neg hws] at hdc
      subst hdc
      exact h d h2
  · subst h2
    by_cases hws : isWsTW ' '
    · rw [if_pos hws] at hdc
      subst hdc
      decide
    · rw [if_neg hws] at hdc
      subst hdc
      decide

/-- Munging a non-empty text yields a non-empty text. -/
theorem munge_ne_nil {text : List Char} (h : text ≠ []) : munge text ≠ [] := by
  rw [munge]
  intro hmap
  have hexp : expandtabsGo 0 text = [] := by
    cases hexp2 : expandtabsGo 0 text with
    | nil => rfl
    | cons a b =>
        rw [hexp2] at hmap
        simp at hmap
  cases text with
  | nil => exact h rfl
  | cons x rest =>
      rw [expandtabsGo] at hexp
      by_cases hx : x = '\t'
      · rw [if_pos hx] at hexp
        have : (8 - 0 % 8) = 8 := by norm_num
        rw [this] at hexp
        simp [List.replicate] at hexp
      · rw [if_neg hx] at hexp
        by_cases hx2 : (x = '\n' || x = '\r') = true
        · rw [if_pos hx2] at hexp
          exact List.cons_ne_nil _ _ hexp
        · rw [if_neg hx2] at hexp
          exact List.cons_ne_nil _ _ hexp

/-- Quote escaping preserves the ASCII property. -/
theorem escapeGo_ascii : ∀ (l : List Char) prev, (∀ c ∈ l, c.toNat < 128) →
    ∀ c ∈ escapeGo prev l, c.toNat < 128 := by
  intro l
  induction l with
  | nil => intro prev _ c hc; simp [escapeGo] at hc
  | cons x rest ih =>
      intro prev h c hc
      rw [escapeGo] at hc
      by_cases hcond : (x = '"' && prev ≠ some '\\') = true
      · rw [if_pos hcond] at hc
        rcases List.mem_cons.mp hc with h2 | h2
        · subst h2; decide
        · rcases List.mem_cons.mp h2 with h3 | h3
          · subst h3; decide
          · exact ih (some x) (fun d hd => h d (List.mem_cons_of_mem _ hd)) c h3
      · rw [if_neg hcond] at hc
        rcases List.mem_cons.mp hc with h2 | h2
        · subst h2; exact h _ (List.mem_cons_self _ _)
        · exact ih (some x) (fun d hd => h d (List.mem_cons_of_mem _ hd)) c h2

/-- The processed text of ASCII fragments is ASCII. -/
theorem process_text_ascii {lines : List (List Char)}
    (h : ∀ l ∈ lines, ∀ c ∈ l, c.toNat < 128) :
    ∀ c ∈ process_text lines, c.toNat < 128 := by
  intro c hc
  rw [process_text, escape_quotes] at hc
  refine escapeGo_ascii lines.flatten none ?_ c hc
  intro d hd
  obtain ⟨l, hl, hdl⟩ := List.mem_flatten.mp hd
  exact h l hl d hdl

/-- Every line wrapped from an ASCII text has unit-width characters and
at most the width of them. -/
theorem wrap_ascii_bound (f : ℚ) (w : ℤ) (hw : 1 ≤ w) (text : List Char)
    (h : ∀ c ∈ text, c.toNat < 128) :
    ∀ line ∈ wrap f w text,
      (∀ c ∈ line, is_full_width c = false) ∧ (line.length : ℤ) ≤ w := by
  intro line hline
  rw [wrap, wrap_chunks, if_neg (by omega)] at hline
  refine wrap_chunksGo_bound f w hw _ _ le_rfl ?_ line hline
  intro ch hch c hc
  exact is_full_width_ascii (munge_ascii h c (splitChunks_mem hch hc))

/-- Characters of the pieces of the escaped-newline split come from the
split text. -/
theorem splitBSn_sub : ∀ (t : List Char), ∀ p ∈ splitBSn t, ∀ c ∈ p, c ∈ t := by
  intro t
  induction t using splitBSn.induct with
  | case1 =>
      intro p hp c hc
      rw [splitBSn.eq_1] at hp
      simp at hp
      subst hp
      simp at hc
  | case2 rest ih =>
      intro p hp c hc
      rw [splitBSn.eq_2] at hp
      rcases List.mem_cons.mp hp with h2 | h2
      · subst h2; simp at hc
      · exact List.mem_cons_of_mem _ (List.mem_cons_of_mem _ (ih p h2 c hc))
  | case3 x rest hne hh tl heq ih =>
      intro p hp c hc
      rw [splitBSn.eq_3 x rest hne, heq] at hp
      rcases List.mem_cons.mp hp with h2 | h2
      · subst h2
        rcases List.mem_cons.mp hc with h3 | h3
        · subst h3; exact List.mem_cons_self _ _
        · have hmem : hh ∈ splitBSn rest := by
            rw [heq]
            exact List.mem_cons_self _ _
          exact List.mem_cons_of_mem _ (ih hh hmem c h3)
      · have hmem : p ∈ splitBSn rest := by
          rw [heq]
          exact List.mem_cons_of_mem _ h2
        exact List.mem_cons_of_mem _ (ih p hmem c hc)
  | case4 x rest hne heq ih =>
      intro p hp c hc
      rw [splitBSn.eq_3 x rest hne, heq] at hp
      simp at hp
      subst hp
      simp at hc
      subst hc
      exact List.mem_cons_self _ _

/-- The escaped-newline split never returns an empty list of pieces. -/
theorem splitBSn_ne_nil : ∀ (t : List Char), splitBSn t ≠ [] := by
  intro t
  induction t using splitBSn.induct with
  | case1 => rw [splitBSn.eq_1]; exact List.cons_ne_nil _ _
  | case2 rest ih => rw [splitBSn.eq_2]; exact List.cons_ne_nil _ _
  | case3 x rest hne hh tl heq ih =>
      rw [splitBSn.eq_3 x rest hne, heq]
      exact List.cons_ne_nil _ _
  | case4 x rest hne heq ih =>
      rw [splitBSn.eq_3 x rest hne, heq]
      exact List.cons_ne_nil _ _

/-- A singleton escaped-newline split means the text had no separator:
the single piece is the whole text. -/
theorem splitBSn_singleton : ∀ (t s : List Char), splitBSn t = [s] → s = t := by
  intro t
  induction t using splitBSn.induct with
  | case1 =>
      intro s hs
      rw [splitBSn.eq_1] at hs
      exact ((List.cons.inj hs).1).symm
  | case2 rest ih =>
      intro s hs
      rw [splitBSn.eq_2] at hs
      exact absurd (List.cons.inj hs).2 (splitBSn_ne_nil rest)
  | case3 x rest hne hh tl heq ih =>
      intro s hs
      rw [splitBSn.eq_3 x rest hne, heq] at hs
      obtain ⟨h1, h2⟩ := List.cons.inj hs
      subst h2
      have := ih hh heq
      subst this
      exact h1.symm
  | case4 x rest hne heq ih =>
      intro s hs
      exact absurd heq (splitBSn_ne_nil rest)

/-- The default last element of a non-empty list is a member. -/
theorem getLastD_mem {α : Type} (l : List α) (d : α) (h : l ≠ []) :
    l.getLastD d ∈ l := by
  induction l with
  | nil => exact absurd rfl h
  | cons a t ih =>
      cases t with
      | nil => simp
      | cons b u =>
          have h2 : (a :: b :: u).getLastD d = (b :: u).getLastD d := by
            simp
          rw [h2]
          exact List.mem_cons_of_mem _ (ih (by simp))

/-- Characters of a header paragraph are characters of the processed
text, a backslash or the letter n, so ASCII texts give ASCII
paragraphs. -/
theorem headerParas_ascii {t : List Char} (h : ∀ c ∈ t, c.toNat < 128) :
    ∀ p ∈ headerParas t, ∀ c ∈ p, c.toNat < 128 := by
  intro p hp c hc
  have hpiece : ∀ s ∈ (splitBSn t).map (fun q => q ++ ['\\', 'n']), ∀ d ∈ s, d.toNat < 128 := by
    intro s hs d hd
    obtain ⟨q, hq, hqs⟩ := List.mem_map.mp hs
    subst hqs
    rcases List.mem_append.mp hd with h2 | h2
    · exact h d (splitBSn_sub t q hq d h2)
    · rcases List.mem_cons.mp h2 with h3 | h3
      · subst h3; decide
      · simp at h3
        subst h3; decide
  rw [headerParas] at hp
  rcases List.mem_append.mp hp with h2 | h2
  · exact hpiece p (List.dropLast_subset _ h2) c hc
  · simp only [List.mem_singleton] at h2
    subst h2
    have hne : (splitBSn t).map (fun q => q ++ ['\\', 'n']) ≠ [] := by
      intro h0
      exact splitBSn_ne_nil t (List.map_eq_nil_iff.mp h0)
    refine hpiece (((splitBSn t).map (fun q => q ++ ['\\', 'n'])).getLastD [])
      (getLastD_mem _ [] hne) c ?_
    exact List.dropLast_subset _ (List.dropLast_subset _ hc)

/-- C1 counterexample: a msgstr of fifteen CJK ideographs wraps at
width 20, but the long-word break slices the chunk at character index
18, so the emitted continuation line holds all fifteen characters with
display width 27, far above width - 2 = 18 (and a spurious empty
continuation line follows). -/
theorem C1_counterexample_cjk :
    Entry.format ⟨⟨0, 2⟩, [['x']], [List.replicate 15 '中']⟩ 20 F95 false =
      ["msgid \"x\"".toList, "msgstr \"\"".toList,
        quoteLine (List.replicate 15 '中'), "\"\"".toList] ∧
    18 < new_len_spec F95 (List.replicate 15 '中') := by
  constructor
  · decide
  · rw [← new_len_eq_spec]
    decide

/-- C1 amended: when every fragment character is ASCII, every quoted
continuation line emitted by a reformatted field holds a wrapped
content of display width at most width - 2.  With CJK characters the
bound can fail, because the long-word break slices by character index
and the greedy loop accumulates the truncated per-chunk lengths. -/
theorem C1_ascii_wrap_bound (e : Entry) (title : List Char)
    (lines : List (List Char)) (width : ℤ) (f : ℚ) (hw : 3 ≤ width)
    (hascii : ∀ l ∈ lines, ∀ c ∈ l, c.toNat < 128) :
    ∀ q ∈ (format_text e title lines width f true).tail,
      ∃ content, q = quoteLine content ∧ new_len_spec f content ≤ width - 2 := by
  intro q hq
  rw [format_text.eq_def] at hq
  simp only [Bool.not_true, Bool.false_eq_true, if_false] at hq
  have hasciitext : ∀ c ∈ process_text lines, c.toNat < 128 := process_text_ascii hascii
  by_cases hfit : new_len f title + new_len f (process_text lines) + 3 ≤ width
  · rw [if_pos hfit] at hq
    simp at hq
  · rw [if_neg hfit] at hq
    by_cases hh : e.msgid = [[]]
    · rw [if_pos hh] at hq
      rw [List.tail_cons] at hq
      obtain ⟨p, hp, hqp⟩ := List.mem_flatMap.mp hq
      obtain ⟨content, hcmem, hqc⟩ := List.mem_map.mp hqp
      refine ⟨content, hqc.symm, ?_⟩
      have hpascii := headerParas_ascii hasciitext p hp
      have hb := wrap_ascii_bound f (width - 2) (by omega) p hpascii content hcmem
      rw [← new_len_eq_spec, new_len_unit f content hb.1]
      omega
    · rw [if_neg hh] at hq
      rw [List.tail_cons] at hq
      obtain ⟨content, hcmem, hqc⟩ := List.mem_map.mp hq
      refine ⟨content, hqc.symm, ?_⟩
      have hb := wrap_ascii_bound f (width - 2) (by omega) (process_text lines)
        hasciitext content hcmem
      rw [← new_len_eq_spec, new_len_unit f content hb.1]
      omega

/-- C1 witness: the amended bound at a concrete ASCII msgstr that wraps
at width 20. -/
theorem C1_ascii_wrap_bound_witness :
    ((3 : ℤ) ≤ 20 ∧
      (∀ l ∈ [("hello world this is a test of wrapping".toList)],
        ∀ c ∈ l, c.toNat < 128)) ∧
    (∀ q ∈ (format_text ⟨⟨0, 2⟩, [['x']], [("hello world this is a test of wrapping".toList)]⟩
        "msgstr".toList [("hello world this is a test of wrapping".toList)] 20 F95 true).tail,
      ∃ content, q = quoteLine content ∧ new_len_spec F95 content ≤ 20 - 2) :=
  ⟨⟨by norm_num, by decide⟩,
    C1_ascii_wrap_bound ⟨⟨0, 2⟩, [['x']], [("hello world this is a test of wrapping".toList)]⟩
      "msgstr".toList [("hello world this is a test of wrapping".toList)] 20 F95
      (by norm_num) (by decide)⟩

/-- Dropping the last element twice removes an appended two-element
suffix. -/
theorem dropLast_two_append (l : List Char) (a b : Char) :
    (l ++ [a, b]).dropLast.dropLast = l := by
  have h : l ++ [a, b] = (l ++ [a]) ++ [b] := by simp
  rw [h, List.dropLast_concat, List.dropLast_concat]

/-- A non-empty text always yields some non-empty header paragraph. -/
theorem headerParas_exists_ne {t : List Char} (h : t ≠ []) :
    ∃ p ∈ headerParas t, p ≠ [] := by
  rw [headerParas]
  cases hsp : splitBSn t with
  | nil => exact absurd hsp (splitBSn_ne_nil t)
  | cons s0 tl =>
      cases tl with
      | nil =>
          have hs0 : s0 = t := splitBSn_singleton t s0 hsp
          refine ⟨t, ?_, h⟩
          simp [dropLast_two_append, hs0]
      | cons s1 tl2 =>
          refine ⟨s0 ++ ['\\', 'n'], ?_, by simp⟩
          refine List.mem_append_left _ ?_
          simp [List.dropLast]

/-- C4 counterexample: the claim says the field is emitted as the single
line title-quote-text-quote exactly when the length condition holds, but
for an empty msgstr fragment at width 8 the condition fails (6 + 0 + 3 >
8) while the wrap of the empty text produces no continuation lines, so
the output is still that single line. -/
theorem C4_counterexample_empty_text :
    format_text ⟨⟨0, 2⟩, [['x']], [[]]⟩ "msgstr".toList [[]] 8 F95 true =
      [titleLine "msgstr".toList (process_text [[]])] ∧
    ¬ (new_len_spec F95 "msgstr".toList + new_len_spec F95 (process_text [[]]) + 3 ≤ 8) := by
  constructor
  · decide
  · rw [← new_len_eq_spec, ← new_len_eq_spec]
    decide

/-- C4 amended: if the length condition holds the field is emitted as
the single line of title and quoted text; conversely, when the processed
text is non-empty and the condition fails, at least two lines are
emitted, so the single-line form appears exactly under the condition for
non-empty texts. -/
theorem C4_single_line (e : Entry) (title : List Char) (lines : List (List Char))
    (width : ℤ) (f : ℚ) (hw : 3 ≤ width) :
    (new_len_spec f title + new_len_spec f (process_text lines) + 3 ≤ width →
      format_text e title lines width f true = [titleLine title (process_text lines)]) ∧
    (process_text lines ≠ [] →
      ¬ (new_len_spec f title + new_len_spec f (process_text lines) + 3 ≤ width) →
      2 ≤ (format_text e title lines width f true).length) := by
  constructor
  · intro hfit
    rw [format_text.eq_def]
    simp only [Bool.not_true, Bool.false_eq_true, if_false]
    rw [if_pos (by rw [new_len_eq_spec, new_len_eq_spec]; exact hfit)]
  · intro hne hfit
    rw [format_text.eq_def]
    simp only [Bool.not_true, Bool.false_eq_true, if_false]
    rw [if_neg (by rw [new_len_eq_spec, new_len_eq_spec]; exact hfit)]
    by_cases hh : e.msgid = [[]]
    · rw [if_pos hh]
      obtain ⟨p, hp, hpne⟩ := headerParas_exists_ne hne
      have hwne : wrap f (width - 2) p ≠ [] := by
        intro h0
        have hfl := wrap_flatten f (width - 2) (by omega) p
        rw [h0] at hfl
        exact munge_ne_nil hpne hfl.symm
      have hfm : (headerParas (process_text lines)).flatMap
          (fun p => (wrap f (width - 2) p).map quoteLine) ≠ [] := by
        intro h0
        rw [List.flatMap_eq_nil_iff] at h0
        have := h0 p hp
        rw [List.map_eq_nil_iff] at this
        exact hwne this
      cases hcase : (headerParas (process_text lines)).flatMap
          (fun p => (wrap f (width - 2) p).map quoteLine) with
      | nil => exact absurd hcase hfm
      | cons a l2 => simp
    · rw [if_neg hh]
      have hwne : wrap f (width - 2) (process_text lines) ≠ [] := by
        intro h0
        have hfl := wrap_flatten f (width - 2) (by omega) (process_text lines)
        rw [h0] at hfl
        exact munge_ne_nil hne hfl.symm
      cases hcase : wrap f (width - 2) (process_text lines) with
      | nil => exact absurd hcase hwne
      | cons a l2 => simp

/-- C4 witness: example A, the entry msgid empty and msgstr hello at
width 76 renders as the single msgstr line. -/
theorem C4_single_line_witness :
    ((3 : ℤ) ≤ 76 ∧
      new_len_spec F95 "msgstr".toList +
        new_len_spec F95 (process_text ["hello".toList]) + 3 ≤ 76) ∧
    format_text ⟨⟨0, 2⟩, [[]], ["hello".toList]⟩ "msgstr".toList ["hello".toList]
        76 F95 true = [titleLine "msgstr".toList (process_text ["hello".toList])] := by
  refine ⟨⟨by norm_num, ?_⟩, ?_⟩
  · rw [← new_len_eq_spec, ← new_len_eq_spec]
    decide
  · exact (C4_single_line ⟨⟨0, 2⟩, [[]], ["hello".toList]⟩ "msgstr".toList
      ["hello".toList] 76 F95 (by norm_num)).1
      (by rw [← new_len_eq_spec, ← new_len_eq_spec]; decide)

/-- C5: for the header entry (msgid exactly the one empty fragment) a
wrapping field is emitted as the empty-quoted title line followed by the
wraps of each escaped-newline paragraph in order, each paragraph wrapped
independently; and the wrapped lines of one paragraph concatenate back
to exactly that munged paragraph, so no output line ever mixes text of
two different paragraphs. -/
theorem C5_header_paragraph_wrap (e : Entry) (title : List Char)
    (lines : List (List Char)) (width : ℤ) (f : ℚ) (hw : 3 ≤ width)
    (hheader : e.msgid = [[]])
    (hwrapped : ¬ (new_len_spec f title + new_len_spec f (process_text lines) + 3 ≤ width)) :
    format_text e title lines width f true =
      titleLine title [] ::
        ((headerParas (process_text lines)).flatMap fun p =>
          (wrap f (width - 2) p).map quoteLine) ∧
    ∀ p ∈ headerParas (process_text lines),
      (wrap f (width - 2) p).flatten = munge p := by
  constructor
  · rw [format_text.eq_def]
    simp only [Bool.not_true, Bool.false_eq_true, if_false]
    rw [if_neg (by rw [new_len_eq_spec, new_len_eq_spec]; exact hwrapped), if_pos hheader]
  · intro p hp
    exact wrap_flatten f (width - 2) (by omega) p

/-- C5 witness: a header msgstr with an embedded escaped newline at
width 12. -/
theorem C5_header_paragraph_wrap_witness :
    ((3 : ℤ) ≤ 12 ∧
      (⟨⟨0, 2⟩, [[]], ["alpha beta\\ngamma delta".toList]⟩ : Entry).msgid = [[]] ∧
      ¬ (new_len_spec F95 "msgstr".toList +
          new_len_spec F95 (process_text ["alpha beta\\ngamma delta".toList]) + 3 ≤ 12)) ∧
    (format_text ⟨⟨0, 2⟩, [[]], ["alpha beta\\ngamma delta".toList]⟩ "msgstr".toList
        ["alpha beta\\ngamma delta".toList] 12 F95 true =
      titleLine "msgstr".toList [] ::
        ((headerParas (process_text ["alpha beta\\ngamma delta".toList])).flatMap fun p =>
          (wrap F95 (12 - 2) p).map quoteLine) ∧
     ∀ p ∈ headerParas (process_text ["alpha beta\\ngamma delta".toList]),
       (wrap F95 (12 - 2) p).flatten = munge p) := by
  refine ⟨⟨by norm_num, rfl, ?_⟩, ?_⟩
  · rw [← new_len_eq_spec, ← new_len_eq_spec]
    decide
  · exact C5_header_paragraph_wrap ⟨⟨0, 2⟩, [[]], ["alpha beta\\ngamma delta".toList]⟩
      "msgstr".toList ["alpha beta\\ngamma delta".toList] 12 F95 (by norm_num) rfl
      (by rw [← new_len_eq_spec, ← new_len_eq_spec]; decide)

/-- A line starting with a non-whitespace character is not blank. -/
theorem isBlank_cons_false {c : Char} (l : List Char) (hc : isPySpace c = false) :
    isBlank (c :: l) = false := by
  rw [isBlank, pyStrip, List.dropWhile_cons_of_neg (by simp [hc])]
  have hne : (c :: l).reverse.dropWhile isPySpace ≠ [] := by
    intro h0
    have := List.dropWhile_eq_nil_iff.mp h0 c (by simp)
    rw [hc] at this
    exact Bool.false_ne_true this
  cases hcase : (c :: l).reverse.dropWhile isPySpace with
  | nil => exact absurd hcase hne
  | cons a t => simp

/-- The anchored message pattern accepts a quoted body with no trailing
spaces and captures the body. -/
theorem matchMessage_quoted (m : List Char) (hm : m.contains '\n' = false) :
    matchMessage ('"' :: (m ++ ['"'])) = some m := by
  rw [matchMessage]
  have hrev : (m ++ ['"']).reverse = '"' :: m.reverse := by simp
  rw [hrev, List.dropWhile_cons_of_neg (by simp)]
  simp only [List.reverse_reverse]
  simp [hm]
  simpa using hm

/-- Elements of a replicated blank file prefix are blank lines. -/
theorem getD_replicate_nil : ∀ (n i : ℕ),
    (List.replicate n ([] : List Char)).getD i [] = [] := by
  intro n
  induction n with
  | zero => intro i; cases i <;> rfl
  | succ k ih =>
      intro i
      cases i with
      | zero => rfl
      | succ j =>
          rw [List.replicate_succ]
          exact ih j

/-- C7 counterexample: for the two-line file of one msgid line and a
blank line, the missing msgstr is reported at line 1 (the blank line
where the entry terminated), not at line 0 where the entry starts. -/
theorem C7_counterexample_lineno :
    parse ["msgid \"a\"".toList, [] ] = .error ⟨1, "Missing msgstr"⟩ ∧ (1 : ℕ) ≠ 0 :=
  ⟨by decide, by decide⟩

/-- C7 amended: for every file of any number of leading blank lines
followed by a single msgid line with a quoted body and no msgstr, parse
raises Missing msgstr at the line number where the termination was
detected, the end-of-input position pre + 1, not the entry start
pre. -/
theorem C7_missing_msgstr_lineno (pre : ℕ) (m : List Char)
    (hm : m.contains '\n' = false) :
    parse (List.replicate pre [] ++
        [('m' :: 's' :: 'g' :: 'i' :: 'd' :: ' ' :: '"' :: (m ++ ['"']))]) =
      .error ⟨pre + 1, "Missing msgstr"⟩ := by
  set L := List.replicate pre ([] : List Char) ++
    [('m' :: 's' :: 'g' :: 'i' :: 'd' :: ' ' :: '"' :: (m ++ ['"']))] with hL
  have hlen : L.length = pre + 1 := by
    rw [hL]
    simp
  have hline : L.getD pre [] = 'm' :: 's' :: 'g' :: 'i' :: 'd' :: ' ' :: '"' :: (m ++ ['"']) := by
    rw [hL, List.getD_append_right _ _ _ _ (by simp)]
    simp
  have hblank : ∀ j, j < pre → L.getD j [] = [] := by
    intro j hj
    rw [hL, List.getD_append _ _ _ _ (by simp [hj])]
    exact getD_replicate_nil pre j
  have hentry : parse_entryGo L (L.length + 1) pre [] [] Temp.tnone (pre - 1) =
      .error ⟨pre + 1, "Missing msgstr"⟩ := by
    rw [hlen, parse_entryGo]
    rw [if_neg (by rw [hlen]; omega), hline]
    dsimp only
    rw [if_neg (by rw [isBlank_cons_false _ (by decide)]; simp)]
    rw [if_neg (by simp [startswith]), if_pos (by simp [startswith])]
    rw [if_neg (by decide)]
    have hdrop : ('m' :: 's' :: 'g' :: 'i' :: 'd' :: ' ' :: '"' ::
        (m ++ ['"'])).drop 6 = '"' :: (m ++ ['"']) := rfl
    rw [hdrop, matchMessage_quoted m hm]
    dsimp only
    rw [parse_entryGo]
    rw [if_pos (by rw [hlen])]
    rfl
  have hmain : ∀ d j, j + d = pre →
      parseGo L (d + 2) j [] [] = .error ⟨pre + 1, "Missing msgstr"⟩ := by
    intro d
    induction d with
    | zero =>
        intro j hj
        have hj' : j = pre := by omega
        rw [parseGo]
        rw [if_neg (by rw [hlen]; omega), hj', hline]
        dsimp only
        rw [if_neg (by simp [startswith])]
        rw [if_neg (by rw [isBlank_cons_false _ (by decide)]; simp [startswith])]
        rw [if_pos (by simp [startswith]), hentry]
    | succ k ih =>
        intro j hj
        rw [parseGo]
        rw [if_neg (by rw [hlen]; omega), hblank j (by omega)]
        dsimp only
        rw [if_neg (by simp [startswith]), if_pos (by simp [isBlank, pyStrip])]
        exact ih (j + 1) (by omega)
  have hfin := hmain pre 0 (by omega)
  rw [parse, hlen]
  exact hfin

/-- C7 witness: the amended statement at one leading blank line and the
body a. -/
theorem C7_missing_msgstr_lineno_witness :
    (("a".toList).contains '\n' = false) ∧
    parse (List.replicate 1 [] ++
        [('m' :: 's' :: 'g' :: 'i' :: 'd' :: ' ' :: '"' :: ("a".toList ++ ['"']))]) =
      .error ⟨1 + 1, "Missing msgstr"⟩ :=
  ⟨by decide, C7_missing_msgstr_lineno 1 "a".toList (by decide)⟩

/-- Specification of one entry parse: the cursor after the entry is one
past the span end, the span start is at or после the initial start
line, the cursor does not move backwards past the call position, the
span end stays within the file; and when a msgid fragment has already
been taken (with the started-state arithmetic invariant) the start line
is frozen and the span is non-empty. -/
theorem parse_entryGo_spec (lines : List (List Char)) :
    ∀ fuel pos msgid msgstr temp start ent pos',
      parse_entryGo lines fuel pos msgid msgstr temp start = .ok (ent, pos') →
      start + 1 ≤ pos →
      pos ≤ lines.length →
      ((pos' = ent.span.stop + 1 ∧ start ≤ ent.span.start ∧ pos ≤ pos' ∧
         ent.span.stop ≤ lines.length) ∧
       (msgid ≠ [] →
         (msgstr = [] ∨ start + 2 ≤ pos) →
         ent.span.start = start ∧ start + 1 ≤ ent.span.stop)) := by
  intro fuel
  induction fuel with
  | zero =>
      intro pos msgid msgstr temp start ent pos' h
      rw [parse_entryGo] at h
      exact absurd h (by simp)
  | succ fuel ih =>
      intro pos msgid msgstr temp start ent pos' h hpos hle
      rw [parse_entryGo] at h
      dsimp only at h
      by_cases h1 : lines.length ≤ pos
      · rw [if_pos h1] at h
        by_cases h2 : msgstr.isEmpty
        · rw [if_pos h2] at h
          exact absurd h (by simp)
        · rw [if_neg h2] at h
          simp only [Except.ok.injEq, Prod.mk.injEq] at h
          obtain ⟨hent, hpos'⟩ := h
          subst hent
          subst hpos'
          refine ⟨⟨rfl, le_rfl, by first | omega | (dsimp only; omega), by first | omega | (dsimp only; omega)⟩,
            fun _ _ => ⟨rfl, by first | omega | (dsimp only; omega)⟩⟩
      · rw [if_neg h1] at h
        by_cases h2 : isBlank (lines.getD pos []) = true
        · rw [if_pos h2] at h
          by_cases h3 : msgstr.isEmpty
          · rw [if_pos h3] at h
            exact absurd h (by simp)
          · rw [if_neg h3] at h
            simp only [Except.ok.injEq, Prod.mk.injEq] at h
            obtain ⟨hent, hpos'⟩ := h
            subst hent
            subst hpos'
            refine ⟨⟨rfl, le_rfl, by first | omega | (dsimp only; omega), by first | omega | (dsimp only; omega)⟩,
              fun _ _ => ⟨rfl, by first | omega | (dsimp only; omega)⟩⟩
        · rw [if_neg h2] at h
          by_cases h3 : startswith (lines.getD pos []) "#".toList = true
          · rw [if_pos h3] at h
            have := ih (pos + 1) msgid msgstr temp start ent pos' h (by omega) (by omega)
            refine ⟨⟨this.1.1, this.1.2.1, by omega, this.1.2.2.2⟩, ?_⟩
            intro hmid hstr
            exact this.2 hmid (by omega)
          · rw [if_neg h3] at h
            by_cases h4 : startswith (lines.getD pos []) "msgid".toList = true
            · rw [if_pos h4] at h
              by_cases h5 : (!msgid.isEmpty) = true
              · rw [if_pos h5] at h
                by_cases h6 : msgstr.isEmpty
                · rw [if_pos h6] at h
                  exact absurd h (by simp)
                · rw [if_neg h6] at h
                  simp only [Except.ok.injEq, Prod.mk.injEq] at h
                  obtain ⟨hent, hpos'⟩ := h
                  subst hent
                  subst hpos'
                  refine ⟨⟨rfl, le_rfl, by first | omega | (dsimp only; omega), by first | omega | (dsimp only; omega)⟩, ?_⟩
                  intro hmid hstr
                  have hstr2 : start + 2 ≤ pos := by
                    rcases hstr with hstr | hstr
                    · exact absurd hstr (by simpa using h6)
                    · exact hstr
                  exact ⟨rfl, by first | omega | (dsimp only; omega)⟩
              · rw [if_neg h5] at h
                cases hmt : matchMessage ((lines.getD pos []).drop 6) with
                | none =>
                    rw [hmt] at h
                    exact absurd h (by simp)
                | some g =>
                    rw [hmt] at h
                    have := ih (pos + 1) [g] msgstr Temp.tid pos ent pos' h
                      (by omega) (by omega)
                    refine ⟨⟨this.1.1, by omega, by omega, this.1.2.2.2⟩, ?_⟩
                    intro hmid hstr
                    have hmid0 : msgid = [] := by simpa using h5
                    exact absurd hmid0 hmid
            · rw [if_neg h4] at h
              by_cases h5 : startswith (lines.getD pos []) "msgstr".toList = true
              · rw [if_pos h5] at h
                by_cases h6 : (!msgstr.isEmpty) = true
                · rw [if_pos h6] at h
                  by_cases h7 : msgstr.isEmpty
                  · rw [if_pos h7] at h
                    exact absurd h (by simp)
                  · rw [if_neg h7] at h
                    simp only [Except.ok.injEq, Prod.mk.injEq] at h
                    obtain ⟨hent, hpos'⟩ := h
                    subst hent
                    subst hpos'
                    refine ⟨⟨rfl, le_rfl, by first | omega | (dsimp only; omega), by first | omega | (dsimp only; omega)⟩, ?_⟩
                    intro hmid hstr
                    have hstr2 : start + 2 ≤ pos := by
                      rcases hstr with hstr | hstr
                      · exact absurd hstr (by simpa using h6)
                      · exact hstr
                    exact ⟨rfl, by first | omega | (dsimp only; omega)⟩
                · rw [if_neg h6] at h
                  cases hmt : matchMessage ((lines.getD pos []).drop 7) with
                  | none =>
                      rw [hmt] at h
                      exact absurd h (by simp)
                  | some g =>
                      rw [hmt] at h
                      have := ih (pos + 1) msgid [g] Temp.tstr start ent pos' h
                        (by omega) (by omega)
                      refine ⟨⟨this.1.1, this.1.2.1, by omega, this.1.2.2.2⟩, ?_⟩
                      intro hmid hstr
                      exact this.2 hmid (by omega)
              · rw [if_neg h5] at h
                cases hmt : matchMessage (lines.getD pos []) with
                | none =>
                    rw [hmt] at h
                    exact absurd h (by simp)
                | some g =>
                    rw [hmt] at h
                    cases temp with
                    | tnone =>
                        have := ih (pos + 1) msgid msgstr Temp.tnone start ent pos' h
                          (by omega) (by omega)
                        refine ⟨⟨this.1.1, this.1.2.1, by omega, this.1.2.2.2⟩, ?_⟩
                        intro hmid hstr
                        exact this.2 hmid (by omega)
                    | tid =>
                        have := ih (pos + 1) (msgid ++ [g]) msgstr Temp.tid start ent pos' h
                          (by omega) (by omega)
                        refine ⟨⟨this.1.1, this.1.2.1, by omega, this.1.2.2.2⟩, ?_⟩
                        intro hmid hstr
                        exact this.2 (by simp) (by omega)
                    | tstr =>
                        have := ih (pos + 1) msgid (msgstr ++ [g]) Temp.tstr start ent pos' h
                          (by omega) (by omega)
                        refine ⟨⟨this.1.1, this.1.2.1, by omega, this.1.2.2.2⟩, ?_⟩
                        intro hmid hstr
                        refine this.2 hmid ?_
                        right
                        rcases hstr with hstr | hstr
                        · omega
                        · omega

theorem startswith_cons {l : List Char} {p : Char} {q : List Char}
    (h : startswith l (p :: q) = true) :
    ∃ t, l = p :: t ∧ startswith t q = true := by
  cases l with
  | nil => exact absurd h (by rw [startswith]; simp)
  | cons c t =>
      rw [startswith] at h
      simp only [Bool.and_eq_true, decide_eq_true_eq] at h
      exact ⟨t, by rw [h.1], h.2⟩

/-- A recorded entry parse starting at a msgid line: the span starts at
that line, extends at least one more line, stays within the file, and the
returned cursor is one past the span end. -/
theorem parse_entry_at_msgid (lines : List (List Char)) :
    ∀ pos ent pos',
      pos < lines.length →
      startswith (lines.getD pos []) "msgid".toList = true →
      parse_entryGo lines (lines.length + 1) pos [] [] Temp.tnone (pos - 1) =
        .ok (ent, pos') →
      pos' = ent.span.stop + 1 ∧ ent.span.start = pos ∧
        pos + 1 ≤ ent.span.stop ∧ ent.span.stop ≤ lines.length := by
  intro pos ent pos' hlt hms h
  have hms2 := hms
  rw [show ("msgid".toList) = 'm' :: ['s', 'g', 'i', 'd'] from rfl] at hms2
  obtain ⟨t, ht, -⟩ := startswith_cons hms2
  rw [parse_entryGo] at h
  dsimp only at h
  rw [if_neg (by omega : ¬ lines.length ≤ pos)] at h
  rw [if_neg (show ¬ (isBlank (lines.getD pos []) = true) by
        rw [ht, isBlank_cons_false _ (by decide)]; simp)] at h
  rw [if_neg (show ¬ (startswith (lines.getD pos []) "#".toList = true) by
        rw [ht]; simp [startswith])] at h
  rw [if_pos hms] at h
  rw [if_neg (by decide)] at h
  cases hmt : matchMessage ((lines.getD pos []).drop 6) with
  | none =>
      rw [hmt] at h
      exact absurd h (by simp)
  | some g =>
      rw [hmt] at h
      have hs := parse_entryGo_spec lines lines.length (pos + 1) [g] [] Temp.tid pos
        ent pos' h (by omega) (by omega)
      have h2 := hs.2 (by simp) (Or.inl rfl)
      exact ⟨hs.1.1, h2.1, h2.2, hs.1.2.2.2⟩

/-- Invariant of the parse loop: recorded entries keep non-empty,
in-file, pairwise ordered spans, and every fuzzy span is disjoint from
every recorded span. -/
theorem parseGo_inv (lines : List (List Char)) :
    ∀ fuel pos es fz out,
      parseGo lines fuel pos es fz = .ok out →
      (∀ e ∈ es, e.span.stop ≤ pos ∧ e.span.start < e.span.stop ∧
        e.span.stop ≤ lines.length) →
      (∀ g ∈ fz, g.span.stop ≤ pos ∧ g.span.stop ≤ lines.length) →
      List.Pairwise (fun a b => a.span.stop ≤ b.span.start) es →
      (∀ g ∈ fz, ∀ e ∈ es, e.span.stop ≤ g.span.start ∨ g.span.stop ≤ e.span.start) →
      ((∀ e ∈ out.entries, e.span.start < e.span.stop ∧ e.span.stop ≤ lines.length) ∧
       List.Pairwise (fun a b => a.span.stop ≤ b.span.start) out.entries ∧
       (∀ g ∈ out.fuzzy, g.span.stop ≤ lines.length ∧
         ∀ e ∈ out.entries, e.span.stop ≤ g.span.start ∨ g.span.stop ≤ e.span.start)) := by
  intro fuel
  induction fuel with
  | zero =>
      intro pos es fz out h
      rw [parseGo] at h
      exact absurd h (by simp)
  | succ fuel ih =>
      intro pos es fz out h hes hfz hpes hcross
      rw [parseGo] at h
      dsimp only at h
      split at h
      · simp only [Except.ok.injEq] at h
        subst h
        exact ⟨fun e he => ⟨(hes e he).2.1, (hes e he).2.2⟩, hpes,
          fun g hg => ⟨(hfz g hg).2, fun e he => hcross g hg e he⟩⟩
      · rename_i h1
        split at h
        · rename_i h2
          split at h
          · exact absurd h (by simp)
          · rename_i ent pos' heq
            have hsp := parse_entryGo_spec lines (lines.length + 1) (pos + 1) [] []
              Temp.tnone pos ent pos' heq (by omega) (by omega)
            obtain ⟨⟨hA1, hA2, hA3, hA4⟩, -⟩ := hsp
            refine ih pos' es (fz ++ [ent]) out h ?_ ?_ hpes ?_
            · intro e he
              have := hes e he
              exact ⟨by omega, this.2.1, this.2.2⟩
            · intro g hg
              rcases List.mem_append.mp hg with hg | hg
              · have := hfz g hg
                exact ⟨by omega, this.2⟩
              · simp only [List.mem_singleton] at hg
                subst hg
                exact ⟨by omega, hA4⟩
            · intro g hg e he
              rcases List.mem_append.mp hg with hg | hg
              · exact hcross g hg e he
              · simp only [List.mem_singleton] at hg
                subst hg
                left
                have := hes e he
                omega
        · rename_i h2
          split at h
          · rename_i h3
            refine ih (pos + 1) es fz out h ?_ ?_ hpes hcross
            · intro e he
              have := hes e he
              exact ⟨by omega, this.2.1, this.2.2⟩
            · intro g hg
              have := hfz g hg
              exact ⟨by omega, this.2⟩
          · rename_i h3
            split at h
            · rename_i h4
              split at h
              · exact absurd h (by simp)
              · rename_i ent pos' heq
                have hsp := parse_entry_at_msgid lines pos ent pos' (by omega) h4 heq
                obtain ⟨hB1, hB2, hB3, hB4⟩ := hsp
                refine ih pos' (es ++ [ent]) fz out h ?_ ?_ ?_ ?_
                · intro e he
                  rcases List.mem_append.mp he with he | he
                  · have := hes e he
                    exact ⟨by omega, this.2.1, this.2.2⟩
                  · simp only [List.mem_singleton] at he
                    subst he
                    exact ⟨by omega, by omega, hB4⟩
                · intro g hg
                  have := hfz g hg
                  exact ⟨by omega, this.2⟩
                · rw [List.pairwise_append]
                  refine ⟨hpes, List.pairwise_singleton _ _, ?_⟩
                  intro a ha b hb
                  simp only [List.mem_singleton] at hb
                  subst hb
                  have := hes a ha
                  omega
                · intro g hg e he
                  rcases List.mem_append.mp he with he | he
                  · exact hcross g hg e he
                  · simp only [List.mem_singleton] at he
                    subst he
                    right
                    have := hfz g hg
                    omega
            · exact absurd h (by simp)

/-- C9: after a successful parse, the recorded entries carry non-empty
half-open line spans that are pairwise non-overlapping and appear in
strictly increasing order in the entries sequence. -/
theorem C9_spans_ordered (lines : List (List Char)) (st : ParseOut)
    (h : parse lines = .ok st) :
    List.Pairwise
        (fun a b => a.span.stop ≤ b.span.start ∧ a.span.start < b.span.start)
        st.entries ∧
      ∀ e ∈ st.entries, e.span.start < e.span.stop := by
  rw [parse] at h
  have hinv := parseGo_inv lines (lines.length + 1) 0 [] [] st h
    (by simp) (by simp) (by simp) (by simp)
  refine ⟨?_, fun e he => (hinv.1 e he).1⟩
  refine List.Pairwise.imp_of_mem (fun {a b} ha hb hr => ⟨hr, ?_⟩) hinv.2.1
  exact lt_of_lt_of_le (hinv.1 a ha).1 hr

theorem C9_spans_ordered_witness :
    List.Pairwise
        (fun a b => a.span.stop ≤ b.span.start ∧ a.span.start < b.span.start)
        (ParseOut.mk
          [⟨⟨0, 2⟩, ["a".toList], ["b".toList]⟩,
           ⟨⟨3, 5⟩, ["c".toList], ["d".toList]⟩] []).entries ∧
      ∀ e ∈ (ParseOut.mk
          [⟨⟨0, 2⟩, ["a".toList], ["b".toList]⟩,
           ⟨⟨3, 5⟩, ["c".toList], ["d".toList]⟩] []).entries,
        e.span.start < e.span.stop :=
  C9_spans_ordered
    ["msgid \"a\"".toList, "msgstr \"b\"".toList, "".toList,
     "msgid \"c\"".toList, "msgstr \"d\"".toList] _ (by decide)

theorem blockAt_take (l : List (List Char)) (a n : ℕ) :
    (l.take (a + n)).drop a = blockAt l a n := by
  rw [blockAt, List.drop_take]
  congr 1
  omega

theorem blockAt_of_take (l₁ l₂ : List (List Char)) (a n b : ℕ)
    (hab : a + n ≤ b) (h : l₁.take b = l₂.take b) :
    blockAt l₁ a n = blockAt l₂ a n := by
  rw [← blockAt_take, ← blockAt_take]
  have h1 : l₁.take (a + n) = l₂.take (a + n) := by
    have h2 := congrArg (List.take (a + n)) h
    rwa [List.take_take, List.take_take, min_eq_left hab] at h2
  rw [h1]

/-- Splicing a batch of entries whose spans all begin at or after b does
not change the first b lines. -/
theorem foldl_splice_take (w : ℤ) (f : ℚ) (nm : Bool) (b : ℕ) :
    ∀ (es : List Entry) (cur : List (List Char)),
      (∀ e ∈ es, b ≤ e.span.start) →
      b ≤ cur.length →
      (es.foldl (fun acc ent => splice acc ent.span.start ent.span.stop
          (ent.format w f nm)) cur).take b = cur.take b := by
  intro es
  induction es with
  | nil => intro cur _ _; rfl
  | cons e rest ih =>
      intro cur hb hlen
      have hbs : b ≤ e.span.start := hb e (List.mem_cons_self _ _)
      have hstep : (splice cur e.span.start e.span.stop (e.format w f nm)).take b
          = cur.take b := by
        rw [splice, List.append_assoc, List.take_append_eq_append_take,
          List.take_take, min_eq_left hbs,
          Nat.sub_eq_zero_of_le (by rw [List.length_take]; omega),
          List.take_zero, List.append_nil]
      have hlen2 : b ≤ (splice cur e.span.start e.span.stop (e.format w f nm)).length := by
        have h3 := congrArg List.length hstep
        rw [List.length_take, List.length_take] at h3
        omega
      rw [List.foldl_cons,
        ih _ (fun x hx => hb x (List.mem_cons_of_mem _ hx)) hlen2, hstep]

/-- Splicing strictly below a block moves the block right by the length
difference without changing its content. -/
theorem blockAt_splice_shift (cur F : List (List Char)) (s e apos n : ℕ)
    (hse : s ≤ e) (hea : e ≤ apos) (hlen : apos + n ≤ cur.length) :
    blockAt (splice cur s e F) (s + F.length + (apos - e)) n =
      blockAt cur apos n := by
  rw [splice, blockAt, blockAt,
    List.drop_append_eq_append_drop,
    List.drop_eq_nil_of_le
      (by rw [List.length_append, List.length_take]; omega),
    List.nil_append]
  have h2 : s + F.length + (apos - e) - (cur.take s ++ F).length = apos - e := by
    rw [List.length_append, List.length_take]
    omega
  rw [h2, List.drop_drop]
  congr 2
  omega

/-- The spliced-in replacement appears verbatim at the splice position. -/
theorem blockAt_splice_self (cur F : List (List Char)) (s e : ℕ)
    (hs : s ≤ cur.length) :
    blockAt (splice cur s e F) s F.length = F := by
  rw [splice, blockAt, List.drop_append_eq_append_drop,
    List.drop_append_eq_append_drop,
    List.drop_eq_nil_of_le (by rw [List.length_take]; omega)]
  have h2 : s - (cur.take s).length = 0 := by
    rw [List.length_take]; omega
  have h3 : s - (cur.take s ++ F).length = 0 := by
    rw [List.length_append, List.length_take]; omega
  rw [h2, h3, List.drop_zero, List.drop_zero, List.nil_append,
    List.take_append_eq_append_take, List.take_length, Nat.sub_self,
    List.take_zero, List.append_nil]

/-- Folding splices over entries whose spans all lie strictly below a
block keeps the block's content intact at some (shifted) position. -/
theorem foldl_splice_shift (w : ℤ) (f : ℚ) (nm : Bool) :
    ∀ (es : List Entry) (cur : List (List Char)) (apos n : ℕ),
      List.Pairwise (fun x y => y.span.stop ≤ x.span.start) es →
      (∀ e ∈ es, e.span.stop ≤ apos ∧ e.span.start ≤ e.span.stop) →
      apos + n ≤ cur.length →
      ∃ p, blockAt (es.foldl (fun acc ent => splice acc ent.span.start ent.span.stop
            (ent.format w f nm)) cur) p n = blockAt cur apos n := by
  intro es
  induction es with
  | nil => intro cur apos n _ _ _; exact ⟨apos, rfl⟩
  | cons e rest ih =>
      intro cur apos n hpair hb hlen
      have he := hb e (List.mem_cons_self _ _)
      obtain ⟨p, hp⟩ := ih (splice cur e.span.start e.span.stop (e.format w f nm))
        (e.span.start + (e.format w f nm).length + (apos - e.span.stop)) n
        hpair.of_cons
        (fun x hx => ⟨le_trans ((List.pairwise_cons.mp hpair).1 x hx) (by omega),
          (hb x (List.mem_cons_of_mem _ hx)).2⟩)
        (by rw [splice, List.length_append, List.length_append,
              List.length_take, List.length_drop]
            omega)
      refine ⟨p, ?_⟩
      rw [List.foldl_cons, hp,
        blockAt_splice_shift cur (e.format w f nm) _ _ apos n he.2 he.1 hlen]

/-- A list of pairwise descending well-formed spans, each entirely after
or entirely before a fixed window, splits into the after-part followed
by the before-part. -/
theorem entries_split_before (fsstart fsstop : ℕ) :
    ∀ (l : List Entry),
      List.Pairwise (fun x y => y.span.stop ≤ x.span.start) l →
      (∀ e ∈ l, e.span.start ≤ e.span.stop) →
      (∀ e ∈ l, fsstop ≤ e.span.start ∨ e.span.stop ≤ fsstart) →
      ∃ A B, l = A ++ B ∧ (∀ e ∈ A, fsstop ≤ e.span.start) ∧
        (∀ e ∈ B, e.span.stop ≤ fsstart) := by
  intro l
  induction l with
  | nil => exact fun _ _ _ => ⟨[], [], rfl, by simp, by simp⟩
  | cons x rest ih =>
      intro hpair hwf hdisj
      rcases hdisj x (List.mem_cons_self _ _) with hx | hx
      · obtain ⟨A, B, hAB, hA, hB⟩ := ih hpair.of_cons
          (fun e he => hwf e (List.mem_cons_of_mem _ he))
          (fun e he => hdisj e (List.mem_cons_of_mem _ he))
        refine ⟨x :: A, B, by rw [hAB, List.cons_append], ?_, hB⟩
        intro e he
        rcases List.mem_cons.mp he with rfl | he2
        · exact hx
        · exact hA e he2
      · refine ⟨[], x :: rest, rfl, by simp, ?_⟩
        intro e he
        rcases List.mem_cons.mp he with rfl | he2
        · exact hx
        · have h1 : e.span.stop ≤ x.span.start := (List.pairwise_cons.mp hpair).1 e he2
          have h2 : x.span.start ≤ x.span.stop := hwf x (List.mem_cons_self _ _)
          omega

/-- C8: a fuzzy-marked entry is parsed but its lines are left untouched
by fix: the block of lines its span occupies in the input reappears
verbatim (contiguously, possibly shifted by earlier reformatting) in the
output, while every recorded non-fuzzy entry's span is rewritten to its
formatted text, which appears verbatim in the output. -/
theorem C8_fuzzy_untouched (lines : List (List Char)) (w : ℤ) (f : ℚ) (nm : Bool)
    (st : ParseOut) (ch : Bool) (out : List (List Char))
    (hp : parse lines = .ok st)
    (hf : fix lines w f nm = .ok (ch, out)) :
    (∀ fent ∈ st.fuzzy, ∃ p,
        blockAt out p (fent.span.stop - fent.span.start) =
          blockAt lines fent.span.start (fent.span.stop - fent.span.start)) ∧
    (∀ e ∈ st.entries, ∃ p,
        blockAt out p (e.format w f nm).length = e.format w f nm) := by
  rw [fix.eq_def, hp] at hf
  dsimp only at hf
  simp only [Except.ok.injEq, Prod.mk.injEq] at hf
  obtain ⟨-, hout⟩ := hf
  rw [parse] at hp
  obtain ⟨hwf, hpair, hfuz⟩ := parseGo_inv lines (lines.length + 1) 0 [] [] st hp
    (by simp) (by simp) (by simp) (by simp)
  have hpr : List.Pairwise (fun x y => y.span.stop ≤ x.span.start)
      st.entries.reverse := by
    rw [List.pairwise_reverse]
    exact hpair
  have hwfr : ∀ e ∈ st.entries.reverse,
      e.span.start < e.span.stop ∧ e.span.stop ≤ lines.length := by
    intro e he
    exact hwf e (List.mem_reverse.mp he)
  constructor
  · intro fent hfent
    by_cases hn : fent.span.start < fent.span.stop
    case neg =>
      have hzero : fent.span.stop - fent.span.start = 0 := by omega
      rw [hzero]
      exact ⟨0, by simp [blockAt]⟩
    case pos =>
      have hflen : fent.span.stop ≤ lines.length := (hfuz fent hfent).1
      have hdisj : ∀ e ∈ st.entries.reverse,
          fent.span.stop ≤ e.span.start ∨ e.span.stop ≤ fent.span.start := by
        intro e he
        rcases (hfuz fent hfent).2 e (List.mem_reverse.mp he) with hc | hc
        · exact Or.inr hc
        · exact Or.inl hc
      obtain ⟨A, B, hAB, hA, hB⟩ := entries_split_before fent.span.start
        fent.span.stop st.entries.reverse hpr
        (fun e he => le_of_lt (hwfr e he).1) hdisj
      rw [hAB, List.foldl_append] at hout
      have h1 := foldl_splice_take w f nm fent.span.stop A lines hA hflen
      have hl1 : fent.span.stop ≤
          (A.foldl (fun acc ent => splice acc ent.span.start ent.span.stop
            (ent.format w f nm)) lines).length := by
        have h3 := congrArg List.length h1
        rw [List.length_take, List.length_take] at h3
        omega
      have hblock1 := blockAt_of_take
        (A.foldl (fun acc ent => splice acc ent.span.start ent.span.stop
          (ent.format w f nm)) lines) lines
        fent.span.start (fent.span.stop - fent.span.start) fent.span.stop
        (by omega) h1
      have hpB : List.Pairwise (fun x y => y.span.stop ≤ x.span.start) B := by
        rw [hAB] at hpr
        exact (List.pairwise_append.mp hpr).2.1
      have hbB : ∀ e ∈ B, e.span.stop ≤ fent.span.start ∧
          e.span.start ≤ e.span.stop := by
        intro e he
        refine ⟨hB e he, le_of_lt (hwfr e ?_).1⟩
        rw [hAB]
        exact List.mem_append_right _ he
      obtain ⟨p, hp2⟩ := foldl_splice_shift w f nm B
        (A.foldl (fun acc ent => splice acc ent.span.start ent.span.stop
          (ent.format w f nm)) lines)
        fent.span.start (fent.span.stop - fent.span.start) hpB hbB (by omega)
      refine ⟨p, ?_⟩
      rw [← hout, hp2, hblock1]
  · intro e he
    obtain ⟨A, B, hAB⟩ := List.append_of_mem (List.mem_reverse.mpr he)
    rw [hAB, List.foldl_append, List.foldl_cons] at hout
    have hwfe := hwf e he
    rw [hAB] at hpr
    have hpp := List.pairwise_append.mp hpr
    have hA : ∀ x ∈ A, e.span.stop ≤ x.span.start := by
      intro x hx
      exact hpp.2.2 x hx e (List.mem_cons_self _ _)
    have hpeB := List.pairwise_cons.mp hpp.2.1
    have h1 := foldl_splice_take w f nm e.span.stop A lines hA hwfe.2
    have hl1 : e.span.stop ≤
        (A.foldl (fun acc ent => splice acc ent.span.start ent.span.stop
          (ent.format w f nm)) lines).length := by
      have h3 := congrArg List.length h1
      rw [List.length_take, List.length_take] at h3
      omega
    have hself := blockAt_splice_self
      (A.foldl (fun acc ent => splice acc ent.span.start ent.span.stop
        (ent.format w f nm)) lines)
      (e.format w f nm) e.span.start e.span.stop (by omega)
    have hbB : ∀ x ∈ B, x.span.stop ≤ e.span.start ∧
        x.span.start ≤ x.span.stop := by
      intro x hx
      refine ⟨hpeB.1 x hx, ?_⟩
      refine le_of_lt (hwfr x ?_).1
      rw [hAB]
      exact List.mem_append_right _ (List.mem_cons_of_mem _ hx)
    have hlen2 : e.span.start + (e.format w f nm).length ≤
        (splice (A.foldl (fun acc ent => splice acc ent.span.start ent.span.stop
          (ent.format w f nm)) lines) e.span.start e.span.stop
          (e.format w f nm)).length := by
      rw [splice, List.length_append, List.length_append, List.length_take,
        List.length_drop]
      omega
    obtain ⟨p, hp2⟩ := foldl_splice_shift w f nm B
      (splice (A.foldl (fun acc ent => splice acc ent.span.start ent.span.stop
        (ent.format w f nm)) lines) e.span.start e.span.stop (e.format w f nm))
      e.span.start (e.format w f nm).length hpeB.2 hbB hlen2
    refine ⟨p, ?_⟩
    rw [← hout, hp2, hself]

theorem C8_fuzzy_untouched_witness :
    (∀ fent ∈ (ParseOut.mk [⟨⟨4, 6⟩, ["a".toList], ["b".toList]⟩]
        [⟨⟨1, 3⟩, ["f".toList], ["g".toList]⟩]).fuzzy, ∃ p,
        blockAt ["#, fuzzy".toList, "msgid \"f\"".toList, "msgstr \"g\"".toList,
            "".toList, "msgid \"a\"".toList, "msgstr \"b\"".toList] p
            (fent.span.stop - fent.span.start) =
          blockAt ["#, fuzzy".toList, "msgid \"f\"".toList, "msgstr \"g\"".toList,
            "".toList, "msgid \"a\"".toList, "msgstr \"b\"".toList]
            fent.span.start (fent.span.stop - fent.span.start)) ∧
    (∀ e ∈ (ParseOut.mk [⟨⟨4, 6⟩, ["a".toList], ["b".toList]⟩]
        [⟨⟨1, 3⟩, ["f".toList], ["g".toList]⟩]).entries, ∃ p,
        blockAt ["#, fuzzy".toList, "msgid \"f\"".toList, "msgstr \"g\"".toList,
            "".toList, "msgid \"a\"".toList, "msgstr \"b\"".toList] p
            (e.format 76 F95 false).length = e.format 76 F95 false) :=
  C8_fuzzy_untouched
    ["#, fuzzy".toList, "msgid \"f\"".toList, "msgstr \"g\"".toList,
     "".toList, "msgid \"a\"".toList, "msgstr \"b\"".toList] 76 F95 false
    _ false
    ["#, fuzzy".toList, "msgid \"f\"".toList, "msgstr \"g\"".toList,
     "".toList, "msgid \"a\"".toList, "msgstr \"b\"".toList]
    (by decide) (by decide)
